import Mathlib

/-!
Verification of the OT collaborative text-editor core
(`dsa-text-editor`): the server transform (`src/server/src/transform.ts`),
the client transform (`src/client/src/rebase.ts`), the rope
(`rope.ts`) and the server apply path (`server.ts`,
`CollabServer.handleOperation`).

Strings are modelled as `List Char` (a JS string is a flat sequence of
code units; every operation here treats it uniformly as a sequence).
JS `number` positions and lengths are modelled as `Int`, so that the
subtractions occurring in the transform functions mean exactly what they
mean in JS.  The optional `text` / `len` fields of the TS `Operation`
interface are modelled as always-present fields: every claim below
restricts itself to operations whose relevant fields are defined, and on
those the TS accesses (`op.text`, `op.text?.length || 0`, …) coincide
with the total fields.  `serverSeq` is an `Option Int` because the
operations arriving in an `op` message carry none.
-/

/-- Operation type tag, from `src/server/src/types.ts` (`OperationType`). -/
inductive OpType where
  | insert
  | delete
deriving DecidableEq, Repr

/-- An operation, from `src/server/src/types.ts` (`Operation`).
`text` is meaningful for inserts, `len` for deletes; `serverSeq` is the
optional stamp of a `ServerOperation` (absent on client-sent operations). -/
structure Op where
  type : OpType
  pos : Int
  clientId : String
  clientSeq : Int
  text : List Char
  len : Int
  serverSeq : Option Int := none
deriving DecidableEq, Repr

/-- JS `<` on lists of code units: lexicographic comparison
(`Char < Char` compares the code units). -/
def jsLtChars : List Char → List Char → Bool
  | _, [] => false
  | [], _ :: _ => true
  | a :: as, b :: bs =>
    if a < b then true
    else if b < a then false
    else jsLtChars as bs

/-- JS `<` on strings: lexicographic by code unit, the comparison the TS
sources apply to `clientId` tie-breaks. -/
def jsLt (a b : String) : Bool := jsLtChars a.data b.data

namespace ServerTransform

/-- `transformInsertInsert` from `src/server/src/transform.ts` (lines 44-67). -/
def transformInsertInsert (opA opB : Op) : Op :=
  if opB.pos < opA.pos then
    { opA with pos := opA.pos + (opB.text.length : Int) }
  else if opB.pos > opA.pos then
    opA
  else
    if jsLt opB.clientId opA.clientId then
      { opA with pos := opA.pos + (opB.text.length : Int) }
    else
      opA

/-- `transformInsertDelete` from `src/server/src/transform.ts` (lines 72-91). -/
def transformInsertDelete (opA opB : Op) : Op :=
  let deleteEnd := opB.pos + opB.len
  if opA.pos ≤ opB.pos then
    opA
  else if opA.pos ≥ deleteEnd then
    { opA with pos := opA.pos - opB.len }
  else
    { opA with pos := opB.pos }

/-- `transformDeleteInsert` from `src/server/src/transform.ts` (lines 96-115). -/
def transformDeleteInsert (opA opB : Op) : Op :=
  let deleteEnd := opA.pos + opA.len
  if opB.pos ≤ opA.pos then
    { opA with pos := opA.pos + (opB.text.length : Int) }
  else if opB.pos ≥ deleteEnd then
    opA
  else
    { opA with len := opA.len + (opB.text.length : Int) }

/-- `transformDeleteDelete` from `src/server/src/transform.ts` (lines 121-174),
with its six cases evaluated top to bottom and the dead default at the end. -/
def transformDeleteDelete (opA opB : Op) : Op :=
  let aEnd := opA.pos + opA.len
  let bEnd := opB.pos + opB.len
  if bEnd ≤ opA.pos then
    { opA with pos := opA.pos - opB.len }
  else if opB.pos ≥ aEnd then
    opA
  else if opB.pos ≤ opA.pos ∧ bEnd ≥ aEnd then
    { opA with pos := opB.pos, len := 0 }
  else if opA.pos ≤ opB.pos ∧ aEnd ≥ bEnd then
    { opA with len := opA.len - opB.len }
  else if opB.pos < opA.pos ∧ bEnd > opA.pos ∧ bEnd < aEnd then
    { opA with pos := opB.pos, len := aEnd - bEnd }
  else if opB.pos > opA.pos ∧ opB.pos < aEnd ∧ bEnd ≥ aEnd then
    { opA with len := opB.pos - opA.pos }
  else
    opA

/-- `transform` from `src/server/src/transform.ts` (lines 16-38): four-way
dispatch on the operation types.  (With the two-constructor `OpType` the
`throw` branch for invalid types is unreachable.) -/
def transform (opA opB : Op) : Op :=
  match opA.type, opB.type with
  | .insert, .insert => transformInsertInsert opA opB
  | .insert, .delete => transformInsertDelete opA opB
  | .delete, .insert => transformDeleteInsert opA opB
  | .delete, .delete => transformDeleteDelete opA opB

end ServerTransform

namespace ClientRebase

/-- `transform` from `src/client/src/rebase.ts` (lines 7-69).  `op1` is
transformed against `op2`.  The TS guards `op2.text?.length || 0` and
`op2.len || 0` evaluate to `op2.text.length` resp. `op2.len` on
operations whose fields are defined (`len = 0` gives `0 || 0 = 0`). -/
def transform (op1 op2 : Op) : Op :=
  if op1.type = .insert ∧ op2.type = .insert then
    if op1.pos < op2.pos then
      op1
    else if op1.pos > op2.pos then
      { op1 with pos := op1.pos + (op2.text.length : Int) }
    else
      if jsLt op1.clientId op2.clientId then
        op1
      else
        { op1 with pos := op1.pos + (op2.text.length : Int) }
  else if op1.type = .insert ∧ op2.type = .delete then
    let delEnd := op2.pos + op2.len
    if op1.pos ≤ op2.pos then
      op1
    else if op1.pos ≥ delEnd then
      { op1 with pos := op1.pos - op2.len }
    else
      { op1 with pos := op2.pos }
  else if op1.type = .delete ∧ op2.type = .insert then
    if op1.pos < op2.pos then
      let delEnd := op1.pos + op1.len
      if delEnd ≤ op2.pos then
        op1
      else
        { op1 with len := op1.len + (op2.text.length : Int) }
    else
      { op1 with pos := op1.pos + (op2.text.length : Int) }
  else if op1.type = .delete ∧ op2.type = .delete then
    let del1End := op1.pos + op1.len
    let del2End := op2.pos + op2.len
    if del1End ≤ op2.pos then
      op1
    else if op1.pos ≥ del2End then
      { op1 with pos := op1.pos - op2.len }
    else
      let newPos := min op1.pos op2.pos
      let newEnd := max del1End del2End - op2.len
      let newLen := max 0 (newEnd - newPos)
      { op1 with pos := newPos, len := newLen }
  else
    op1

end ClientRebase

/-! ### Reference apply semantics

Naive string splicing over the base document, as the spec's P1/P3 use it:
an insert puts its text at `pos`, a delete removes `len` characters from
`pos`.  This is the document semantics the transform claims quantify over. -/

/-- Splice an insertion into a string: `s[0..pos) ++ t ++ s[pos..)`. -/
def spliceInsert (s : List Char) (pos : Nat) (t : List Char) : List Char :=
  s.take pos ++ t ++ s.drop pos

/-- Splice a deletion out of a string: `s[0..pos) ++ s[pos+len..)`. -/
def spliceDelete (s : List Char) (pos len : Nat) : List Char :=
  s.take pos ++ s.drop (pos + len)

/-- Apply one operation to a document string by naive splicing. -/
def applyOp (s : List Char) (op : Op) : List Char :=
  match op.type with
  | .insert => spliceInsert s op.pos.toNat op.text
  | .delete => spliceDelete s op.pos.toNat op.len.toNat

/-- Well-formed insert against base `s` (non-empty text, position in bounds). -/
abbrev WfInsert (op : Op) (s : List Char) : Prop :=
  op.type = .insert ∧ op.text ≠ [] ∧ 0 ≤ op.pos ∧ op.pos ≤ (s.length : Int)

/-- Well-formed delete against base `s` (`len ≥ 1`, range in bounds). -/
abbrev WfDelete (op : Op) (s : List Char) : Prop :=
  op.type = .delete ∧ 1 ≤ op.len ∧ 0 ≤ op.pos ∧ op.pos + op.len ≤ (s.length : Int)

/-- Well-formed operation against base `s`. -/
abbrev WfOp (op : Op) (s : List Char) : Prop := WfInsert op s ∨ WfDelete op s

/-! ### The rope (`rope.ts`)

Internal nodes of the TS `RopeNode` nominally have optional children, but
the only code constructing internal nodes is `Rope.concatenate`, which
always sets both children together with `weight` (the left subtree's
character count) and `height`; so internal nodes are modelled with both
children present.  Methods that `throw` are modelled in `Except`; every
throwing method validates its bounds before mutating, so the functional
reading is faithful to the in-place TS code. -/

/-- A rope node: a leaf holding a text chunk, or an internal node with its
stored `weight` and `height` fields and two children. -/
inductive RopeNode where
  | leaf (text : List Char)
  | node (weight height : Nat) (left right : RopeNode)
deriving DecidableEq, Repr

/-- `RopeNode.length` (`rope.ts` lines 28-33):
`weight + right.length()` for internal nodes, chunk length for leaves. -/
def RopeNode.length : RopeNode → Nat
  | .leaf t => t.length
  | .node w _ _ r => w + r.length

/-- `RopeNode.toString` (`rope.ts` lines 38-45): in-order concatenation. -/
def RopeNode.toStr : RopeNode → List Char
  | .leaf t => t
  | .node _ _ l r => l.toStr ++ r.toStr

/-- `RopeNode.height` as read by `Rope.getHeight`: leaves are constructed
with height 1, internal nodes carry the stored field. -/
def RopeNode.heightVal : RopeNode → Nat
  | .leaf _ => 1
  | .node _ h _ _ => h

/-- `RopeNode.substring(start, end)` (`rope.ts` lines 74-95): validates
`start < 0 || end > length() || start > end` at every level, then
recurses left / right / spanning.  On a leaf, JS
`text.substring(start, end)` with validated arguments is the code-unit
slice `[start, end)`. -/
def RopeNode.substringFn : RopeNode → Int → Int → Except String (List Char)
  | .leaf t, start, stop =>
    if start < 0 ∨ stop > ((RopeNode.leaf t).length : Int) ∨ start > stop then
      .error "Invalid substring range"
    else
      .ok ((t.take stop.toNat).drop start.toNat)
  | .node w h l r, start, stop =>
    if start < 0 ∨ stop > ((RopeNode.node w h l r).length : Int) ∨ start > stop then
      .error "Invalid substring range"
    else if stop ≤ (w : Int) then
      l.substringFn start stop
    else if start ≥ (w : Int) then
      r.substringFn (start - w) (stop - w)
    else do
      let leftPart ← l.substringFn start (w : Int)
      let rightPart ← r.substringFn 0 (stop - w)
      .ok (leftPart ++ rightPart)

/-- Structural invariant of ropes built by `rope.ts`: each internal
node's `weight` equals its left subtree's length (`concatenate` sets
`parent.weight = left.length()`). -/
def RopeNode.wfB : RopeNode → Bool
  | .leaf _ => true
  | .node w _ l r => w == l.length && l.wfB && r.wfB

/-- The `Rope` class state: its optional `root` node. -/
def Rope.ofText (text : List Char) : Option RopeNode :=
  if text.isEmpty then none else some (.leaf text)

/-- `Rope.length` (`rope.ts` lines 113-115). -/
def Rope.length : Option RopeNode → Nat
  | none => 0
  | some n => n.length

/-- `Rope.toString` (`rope.ts` lines 120-122): `''` for an empty rope. -/
def Rope.toStr : Option RopeNode → List Char
  | none => []
  | some n => n.toStr

/-- Rope well-formedness, lifted to the optional root. -/
def Rope.wfB : Option RopeNode → Bool
  | none => true
  | some n => n.wfB

/-- `Rope.substring` (`rope.ts` lines 137-142): an empty rope returns
`''` for every pair of indices, without validation. -/
def Rope.substring (root : Option RopeNode) (start stop : Int) :
    Except String (List Char) :=
  match root with
  | none => .ok []
  | some n => n.substringFn start stop

/-- `Rope.concatenate` (`rope.ts` lines 243-254). -/
def concatenate : Option RopeNode → Option RopeNode → Option RopeNode
  | none, right => right
  | some l, none => some l
  | some l, some r =>
    some (.node l.length (max l.heightVal r.heightVal + 1) l r)

/-- `Rope.split` (`rope.ts` lines 211-235).  (The call sites always pass a
present node, so the `!node` guard is dropped.)  On a leaf, JS
`text.substring(0, pos)` / `text.substring(pos)` with `0 < pos < length`
are `take` / `drop`. -/
def split : RopeNode → Int → Option RopeNode × Option RopeNode
  | .leaf t, pos =>
    if pos = 0 then (none, some (.leaf t))
    else if pos ≥ (t.length : Int) then (some (.leaf t), none)
    else (some (.leaf (t.take pos.toNat)), some (.leaf (t.drop pos.toNat)))
  | .node w _ l r, pos =>
    if pos ≤ (w : Int) then
      let p := split l pos
      (p.1, concatenate p.2 (some r))
    else
      let p := split r (pos - w)
      (concatenate (some l) p.1, p.2)

/-- `Rope.insert` (`rope.ts` lines 149-172). -/
def Rope.insert (root : Option RopeNode) (pos : Int) (text : List Char) :
    Except String (Option RopeNode) :=
  if pos < 0 ∨ pos > (Rope.length root : Int) then
    .error "Insert position out of bounds"
  else
    let newNode : RopeNode := .leaf text
    match root with
    | none => .ok (some newNode)
    | some n =>
      if pos = 0 then
        .ok (concatenate (some newNode) (some n))
      else if pos = (Rope.length (some n) : Int) then
        .ok (concatenate (some n) (some newNode))
      else
        let p := split n pos
        .ok (concatenate (concatenate p.1 (some newNode)) p.2)

/-- `Rope.delete` (`rope.ts` lines 179-203). -/
def Rope.delete (root : Option RopeNode) (pos len : Int) :
    Except String (Option RopeNode) :=
  if pos < 0 ∨ pos + len > (Rope.length root : Int) then
    .error "Delete range out of bounds"
  else
    match root with
    | none => .ok none
    | some n =>
      if len = 0 then .ok (some n)
      else
        let p := split n pos
        match p.2 with
        | none => .ok p.1
        | some t =>
          let q := split t len
          match p.1 with
          | none => .ok q.2
          | some l =>
            match q.2 with
            | none => .ok (some l)
            | some r => .ok (concatenate (some l) (some r))

/-! ### The server apply path (`server.ts`, `CollabServer`)

`handleOperation` is modelled as a function from the per-document state
and the incoming operation to the new state plus the frames produced: the
frames sent to the requesting socket, the broadcast frame and the ids of
its recipients.  The `docs.get(docId)` miss branch (unknown document) is
outside the claims and not modelled. -/

/-- One entry of `doc.clients`: the client id and whether its WebSocket
is in the `OPEN` ready state. -/
structure ClientConn where
  id : String
  isOpen : Bool
deriving DecidableEq, Repr

/-- `DocState` (`server.ts` lines 636-641): rope, raw operation log,
server sequence counter, roster. -/
structure DocState where
  rope : Option RopeNode
  ops : List Op
  serverSeq : Nat
  clients : List ClientConn
deriving DecidableEq, Repr

/-- Frames sent by the server on the apply path. -/
inductive Frame where
  | ack (clientSeq : Int) (serverSeq : Nat)
  | opFrame (operation : Op) (serverSeq : Nat)
  | errorFrame (message : String)
deriving DecidableEq, Repr

/-- `CollabServer.broadcast` (`server.ts` lines 853-864): the ids that
receive the message — every roster entry whose id differs from
`excludeClientId` and whose socket is open. -/
def broadcastRecipients (clients : List ClientConn)
    (excludeClientId : Option String) : List String :=
  (clients.filter fun c => excludeClientId != some c.id && c.isOpen).map
    fun c => c.id

/-- The rope mutation step of `CollabServer.handleOperation`
(`server.ts` lines 776-781): `operation.text` / `operation.len` are JS
truthiness tests, so an insert with empty text or a delete with `len = 0`
skips the rope call entirely. -/
def ropeApplyOp (root : Option RopeNode) (op : Op) :
    Except String (Option RopeNode) :=
  if op.type = .insert ∧ op.text ≠ [] then
    Rope.insert root op.pos op.text
  else if op.type = .delete ∧ op.len ≠ 0 then
    Rope.delete root op.pos op.len
  else
    .ok root

/-- The result of `CollabServer.handleOperation` on one message. -/
structure HandleResult where
  doc : DocState
  toSender : List Frame
  broadcastFrame : Option Frame
  broadcastTo : List String
deriving DecidableEq, Repr

/-- `CollabServer.handleOperation` (`server.ts` lines 764-808): apply to
the rope (the rope validates before mutating, so a failure leaves it
unchanged); on success increment `serverSeq`, push the raw operation,
ack the sender and broadcast to all clients with no exclusion; on failure
send a single error frame and change nothing. -/
def handleOperation (doc : DocState) (op : Op) : HandleResult :=
  match ropeApplyOp doc.rope op with
  | .ok rope2 =>
    let seq2 := doc.serverSeq + 1
    { doc := { doc with rope := rope2, serverSeq := seq2, ops := doc.ops ++ [op] }
      toSender := [.ack op.clientSeq seq2]
      broadcastFrame := some (.opFrame op seq2)
      broadcastTo := broadcastRecipients doc.clients none }
  | .error _ =>
    { doc := doc
      toSender := [.errorFrame "Failed to apply operation"]
      broadcastFrame := none
      broadcastTo := [] }

/-- A fresh document as `handleJoin` creates it (`server.ts` lines
718-725): `new Rope('')` (empty root), empty log, `serverSeq = 0`, with
some roster. -/
def initDoc (clients : List ClientConn) : DocState :=
  { rope := Rope.ofText [], ops := [], serverSeq := 0, clients := clients }

/-- Process a list of incoming `op` messages in order. -/
def runOps (doc : DocState) (msgs : List Op) : DocState :=
  msgs.foldl (fun d op => (handleOperation d op).doc) doc

/-- The rope mutation an `Operation` denotes, as `e2e`-style direct rope
use: `insert(pos, text)` or `delete(pos, len)`. -/
def ropeEdit (root : Option RopeNode) (op : Op) :
    Except String (Option RopeNode) :=
  match op.type with
  | .insert => Rope.insert root op.pos op.text
  | .delete => Rope.delete root op.pos op.len

/-- Apply a sequence of operations to a rope, stopping at the first
failure. -/
def ropeRun (root : Option RopeNode) (ops : List Op) :
    Except String (Option RopeNode) :=
  ops.foldlM ropeEdit root

/-- Apply a sequence of operations to a string by naive splicing. -/
def naiveRun (s : List Char) (ops : List Op) : List Char :=
  ops.foldl applyOp s

/-- Every operation of the sequence is in bounds for the state it is
applied to (positions in `[0, len]`, delete ranges inside the text). -/
def inBoundsB (s : List Char) : List Op → Bool
  | [] => true
  | op :: rest =>
    (decide (0 ≤ op.pos) &&
      (match op.type with
       | .insert => decide (op.pos ≤ (s.length : Int))
       | .delete =>
         decide (0 ≤ op.len) && decide (op.pos + op.len ≤ (s.length : Int))))
    && inBoundsB (applyOp s op) rest

example :
    ServerTransform.transform
      { type := .insert, pos := 5, clientId := "A", clientSeq := 1,
        text := " world".toList, len := 0 }
      { type := .insert, pos := 5, clientId := "B", clientSeq := 1,
        text := "!".toList, len := 0 } =
    { type := .insert, pos := 5, clientId := "A", clientSeq := 1,
      text := " world".toList, len := 0 } := by decide

example :
    (ClientRebase.transform
      { type := .delete, pos := 2, clientId := "A", clientSeq := 1,
        text := [], len := 3 }
      { type := .delete, pos := 3, clientId := "B", clientSeq := 1,
        text := [], len := 3 }).len = 1 := by decide

example :
    Rope.toStr (Rope.ofText "hello".toList) = "hello".toList := by decide

/-! ### Helper lemmas: the JS string order -/

lemma jsLtChars_conn : ∀ {as bs : List Char},
    jsLtChars as bs = false → jsLtChars bs as = false → as = bs
  | [], [], _, _ => rfl
  | [], _ :: _, h, _ => by simp [jsLtChars] at h
  | _ :: _, [], _, h => by simp [jsLtChars] at h
  | a :: as, b :: bs, h1, h2 => by
    simp only [jsLtChars] at h1 h2
    by_cases hab : a < b
    · simp [hab] at h1
    · by_cases hba : b < a
      · simp [hba, hab] at h2
      · have hab' : a = b := le_antisymm (not_lt.mp hba) (not_lt.mp hab)
        simp [hab, hba] at h1 h2
        exact congrArg₂ (· :: ·) hab' (jsLtChars_conn h1 h2)

lemma jsLt_conn {a b : String} (h1 : jsLt a b = false) (h2 : jsLt b a = false) :
    a = b := by
  cases a; cases b
  exact congrArg String.mk (jsLtChars_conn h1 h2)

lemma jsLtChars_asymm : ∀ {as bs : List Char},
    jsLtChars as bs = true → jsLtChars bs as = false
  | _ :: _, [], h => by simp [jsLtChars] at h
  | [], [], h => by simp [jsLtChars] at h
  | [], _ :: _, _ => by simp [jsLtChars]
  | a :: as, b :: bs, h => by
    simp only [jsLtChars] at h ⊢
    by_cases hab : a < b
    · simp [hab, asymm hab]
    · by_cases hba : b < a
      · simp [hab, hba] at h
      · simp [hab, hba] at h ⊢
        exact jsLtChars_asymm h

lemma jsLt_asymm {a b : String} (h : jsLt a b = true) : jsLt b a = false :=
  jsLtChars_asymm h

/-! ### Helper lemmas: splices of one string

`spliceInsert` / `spliceDelete` compositions, each proved by reducing both
sides to a canonical decomposition of the base string. -/

lemma splice_del_zero (s : List Char) (p : Nat) : spliceDelete s p 0 = s := by
  simp [spliceDelete]

lemma ins_ins_comm (s t u : List Char) (p q : Nat) (hpq : p ≤ q) (hq : q ≤ s.length) :
    spliceInsert (spliceInsert s q u) p t
      = spliceInsert (spliceInsert s p t) (q + t.length) u := by
  have hL :
      spliceInsert (spliceInsert s q u) p t
        = s.take p ++ (t ++ ((s.drop p).take (q - p) ++ (u ++ s.drop q))) := by
    have hlen : p ≤ (s.take q).length := by simp; omega
    simp only [spliceInsert, List.append_assoc]
    rw [List.take_append_of_le_length hlen, List.drop_append_of_le_length hlen]
    rw [List.take_take, List.drop_take]
    have : min p q = p := by omega
    rw [this]
  have hR :
      spliceInsert (spliceInsert s p t) (q + t.length) u
        = s.take p ++ (t ++ ((s.drop p).take (q - p) ++ (u ++ s.drop q))) := by
    have hp : (s.take p).length = p := by simp; omega
    simp only [spliceInsert, List.append_assoc]
    rw [List.take_append_eq_append_take, List.drop_append_eq_append_drop, hp]
    have e1 : q + t.length - p = t.length + (q - p) := by omega
    rw [e1, List.take_of_length_le (by omega : (s.take p).length ≤ q + t.length),
        List.drop_of_length_le (by omega : (s.take p).length ≤ q + t.length)]
    rw [List.take_append, List.drop_append]
    rw [List.drop_drop]
    have e2 : p + (q - p) = q := by omega
    rw [e2]
    simp [List.append_assoc]
  rw [hL, hR]

lemma ins_del_left (s t : List Char) (pi pd l : Nat) (h1 : pi ≤ pd)
    (h2 : pd + l ≤ s.length) :
    spliceInsert (spliceDelete s pd l) pi t
      = spliceDelete (spliceInsert s pi t) (pd + t.length) l := by
  have hL :
      spliceInsert (spliceDelete s pd l) pi t
        = s.take pi ++ (t ++ ((s.drop pi).take (pd - pi) ++ s.drop (pd + l))) := by
    have hlen : pi ≤ (s.take pd).length := by simp; omega
    simp only [spliceDelete, spliceInsert]
    rw [List.take_append_of_le_length hlen, List.drop_append_of_le_length hlen]
    rw [List.take_take, List.drop_take]
    have : min pi pd = pi := by omega
    rw [this]
    simp [List.append_assoc]
  have hR :
      spliceDelete (spliceInsert s pi t) (pd + t.length) l
        = s.take pi ++ (t ++ ((s.drop pi).take (pd - pi) ++ s.drop (pd + l))) := by
    have hp : (s.take pi).length = pi := by simp; omega
    simp only [spliceDelete, spliceInsert, List.append_assoc]
    rw [List.take_append_eq_append_take, List.drop_append_eq_append_drop, hp]
    have e1 : pd + t.length - pi = t.length + (pd - pi) := by omega
    have e2 : pd + t.length + l - pi = t.length + (pd - pi + l) := by omega
    rw [e1, e2, List.take_of_length_le (by omega : (s.take pi).length ≤ pd + t.length),
        List.drop_of_length_le (by omega : (s.take pi).length ≤ pd + t.length + l)]
    rw [List.take_append, List.drop_append]
    rw [List.drop_drop]
    have e3 : pi + (pd - pi + l) = pd + l := by omega
    rw [e3]
    simp [List.append_assoc]
  rw [hL, hR]

lemma ins_del_right (s t : List Char) (pi pd l : Nat) (h1 : pd + l ≤ pi)
    (h2 : pi ≤ s.length) :
    spliceInsert (spliceDelete s pd l) (pi - l) t
      = spliceDelete (spliceInsert s pi t) pd l := by
  have hL :
      spliceInsert (spliceDelete s pd l) (pi - l) t
        = s.take pd ++ ((s.drop (pd + l)).take (pi - l - pd) ++ (t ++ s.drop pi)) := by
    have hlen : (s.take pd).length = pd := by simp; omega
    simp only [spliceDelete, spliceInsert]
    rw [List.take_append_eq_append_take, List.drop_append_eq_append_drop, hlen]
    rw [List.take_of_length_le (by omega : (s.take pd).length ≤ pi - l),
        List.drop_of_length_le (by omega : (s.take pd).length ≤ pi - l)]
    rw [List.drop_drop]
    have e1 : pd + l + (pi - l - pd) = pi := by omega
    rw [e1]
    simp [List.append_assoc]
  have hR :
      spliceDelete (spliceInsert s pi t) pd l
        = s.take pd ++ ((s.drop (pd + l)).take (pi - l - pd) ++ (t ++ s.drop pi)) := by
    have hlen : pd ≤ (s.take pi).length := by simp; omega
    simp only [spliceDelete, spliceInsert, List.append_assoc]
    rw [List.take_append_of_le_length hlen, List.take_take]
    have e1 : min pd pi = pd := by omega
    rw [e1, List.drop_append_eq_append_drop]
    have e2 : (s.take pi).length = pi := by simp; omega
    rw [e2]
    have e3 : pd + l - pi = 0 := by omega
    rw [e3, List.drop_take, List.drop_zero]
    have e4 : pi - (pd + l) = pi - l - pd := by omega
    rw [e4]
  rw [hL, hR]

lemma del_del_disjoint (s : List Char) (p1 l1 p2 l2 : Nat) (h1 : p2 + l2 ≤ p1)
    (h2 : p1 + l1 ≤ s.length) :
    spliceDelete (spliceDelete s p2 l2) (p1 - l2) l1
      = spliceDelete (spliceDelete s p1 l1) p2 l2 := by
  have hL :
      spliceDelete (spliceDelete s p2 l2) (p1 - l2) l1
        = s.take p2 ++ ((s.drop (p2 + l2)).take (p1 - l2 - p2) ++ s.drop (p1 + l1)) := by
    have hlen : (s.take p2).length = p2 := by simp; omega
    simp only [spliceDelete]
    rw [List.take_append_eq_append_take, List.drop_append_eq_append_drop, hlen]
    rw [List.take_of_length_le (by omega : (s.take p2).length ≤ p1 - l2),
        List.drop_of_length_le (by omega : (s.take p2).length ≤ p1 - l2 + l1)]
    rw [List.drop_drop]
    have e1 : p2 + l2 + (p1 - l2 + l1 - p2) = p1 + l1 := by omega
    rw [e1]
    simp [List.append_assoc]
  have hR :
      spliceDelete (spliceDelete s p1 l1) p2 l2
        = s.take p2 ++ ((s.drop (p2 + l2)).take (p1 - l2 - p2) ++ s.drop (p1 + l1)) := by
    have hlen : (s.take p1).length = p1 := by simp; omega
    simp only [spliceDelete]
    rw [List.take_append_eq_append_take, List.drop_append_eq_append_drop, hlen]
    rw [List.take_take]
    have e1 : min p2 p1 = p2 := by omega
    have e2 : p2 - p1 = 0 := by omega
    have e3 : p2 + l2 - p1 = 0 := by omega
    rw [e1, e2, e3, List.drop_take, List.drop_zero, List.take_zero]
    have e4 : p1 - (p2 + l2) = p1 - l2 - p2 := by omega
    rw [e4]
    simp [List.append_assoc]
  rw [hL, hR]

lemma del_del_nested (s : List Char) (p1 l1 p2 l2 : Nat) (h1 : p1 ≤ p2)
    (h2 : p2 + l2 ≤ p1 + l1) (h3 : p1 + l1 ≤ s.length) :
    spliceDelete (spliceDelete s p2 l2) p1 (l1 - l2) = spliceDelete s p1 l1 := by
  have hlen : (s.take p2).length = p2 := by simp; omega
  simp only [spliceDelete]
  rw [List.take_append_of_le_length (by omega : p1 ≤ (s.take p2).length)]
  rw [List.take_take]
  have e1 : min p1 p2 = p1 := by omega
  rw [e1, List.drop_append_eq_append_drop, hlen]
  rw [List.drop_of_length_le (by omega : (s.take p2).length ≤ p1 + (l1 - l2))]
  rw [List.drop_drop]
  have e2 : p2 + l2 + (p1 + (l1 - l2) - p2) = p1 + l1 := by omega
  rw [e2]
  simp

lemma del_del_overlap_inner (s : List Char) (p1 l1 p2 l2 : Nat)
    (h3 : p2 + l2 ≤ p1 + l1) (h4 : p1 + l1 ≤ s.length) :
    spliceDelete (spliceDelete s p2 l2) p2 (p1 + l1 - (p2 + l2))
      = s.take p2 ++ s.drop (p1 + l1) := by
  have hlen : (s.take p2).length = p2 := by simp; omega
  simp only [spliceDelete]
  rw [List.take_append_of_le_length (by omega : p2 ≤ (s.take p2).length)]
  rw [List.take_take, min_self]
  rw [List.drop_append_eq_append_drop, hlen]
  rw [List.drop_of_length_le (by omega : (s.take p2).length ≤ p2 + (p1 + l1 - (p2 + l2)))]
  rw [List.drop_drop]
  have e1 : p2 + l2 + (p2 + (p1 + l1 - (p2 + l2)) - p2) = p1 + l1 := by omega
  rw [e1]
  simp

lemma del_del_overlap_outer (s : List Char) (p1 l1 p2 : Nat) (h1 : p2 ≤ p1)
    (h2 : p1 + l1 ≤ s.length) :
    spliceDelete (spliceDelete s p1 l1) p2 (p1 - p2)
      = s.take p2 ++ s.drop (p1 + l1) := by
  have hlen : (s.take p1).length = p1 := by simp; omega
  simp only [spliceDelete]
  rw [List.take_append_of_le_length (by omega : p2 ≤ (s.take p1).length)]
  rw [List.take_take]
  have e1 : min p2 p1 = p2 := by omega
  rw [e1, List.drop_append_eq_append_drop, hlen]
  rw [List.drop_of_length_le (by omega : (s.take p1).length ≤ p2 + (p1 - p2))]
  have e2 : p2 + (p1 - p2) - p1 = 0 := by omega
  rw [e2, List.drop_zero]
  simp

/-! ### C1: TP1 convergence of the server transform -/

/-- C1 (amended): TP1 holds for well-formed pairs authored against the
same base, provided co-located inserts come from distinct client ids and
neither operation is an insert strictly inside the other's deleted
range (the excluded configurations are exactly the ones the
counterexamples refute). -/
theorem c1_tp1_amended (a b : Op) (s : List Char)
    (ha : WfOp a s) (hb : WfOp b s)
    (hii : a.type = .insert → b.type = .insert → a.pos = b.pos →
      a.clientId ≠ b.clientId)
    (hid : a.type = .insert → b.type = .delete →
      ¬(b.pos < a.pos ∧ a.pos < b.pos + b.len))
    (hdi : a.type = .delete → b.type = .insert →
      ¬(a.pos < b.pos ∧ b.pos < a.pos + a.len)) :
    applyOp (applyOp s b) (ServerTransform.transform a b)
      = applyOp (applyOp s a) (ServerTransform.transform b a) := by
  rcases ha with ⟨hat, hane, ha0, hale⟩ | ⟨hat, hal, ha0, hale⟩ <;>
    rcases hb with ⟨hbt, hbne, hb0, hble⟩ | ⟨hbt, hbl, hb0, hble⟩
  · -- insert / insert
    obtain ⟨pa, hpa⟩ : ∃ n : ℕ, a.pos = (n : Int) := ⟨a.pos.toNat, by omega⟩
    obtain ⟨pb, hpb⟩ : ∃ n : ℕ, b.pos = (n : Int) := ⟨b.pos.toNat, by omega⟩
    have hpas : pa ≤ s.length := by omega
    have hpbs : pb ≤ s.length := by omega
    simp only [ServerTransform.transform, hat, hbt]
    rcases lt_trichotomy pa pb with hlt | heq | hgt
    · have h1 : ServerTransform.transformInsertInsert a b = a := by
        simp only [ServerTransform.transformInsertInsert]
        rw [if_neg (by omega : ¬ b.pos < a.pos), if_pos (by omega : b.pos > a.pos)]
      have h2 : ServerTransform.transformInsertInsert b a
          = { b with pos := b.pos + (a.text.length : Int) } := by
        simp only [ServerTransform.transformInsertInsert]
        rw [if_pos (by omega : a.pos < b.pos)]
      rw [h1, h2]
      simp only [applyOp, hat, hbt]
      rw [hpa, hpb]
      have e1 : ((pb : Int)).toNat = pb := by omega
      have e2 : ((pa : Int)).toNat = pa := by omega
      have e3 : ((pb : Int) + (a.text.length : Int)).toNat = pb + a.text.length := by
        omega
      rw [e1, e2, e3]
      exact ins_ins_comm s a.text b.text pa pb (le_of_lt hlt) hpbs
    · by_cases hj : jsLt b.clientId a.clientId = true
      · have h1 : ServerTransform.transformInsertInsert a b
            = { a with pos := a.pos + (b.text.length : Int) } := by
          simp only [ServerTransform.transformInsertInsert]
          rw [if_neg (by omega : ¬ b.pos < a.pos),
              if_neg (by omega : ¬ b.pos > a.pos), if_pos hj]
        have hj' : jsLt a.clientId b.clientId = false := jsLt_asymm hj
        have h2 : ServerTransform.transformInsertInsert b a = b := by
          simp only [ServerTransform.transformInsertInsert]
          rw [if_neg (by omega : ¬ a.pos < b.pos),
              if_neg (by omega : ¬ a.pos > b.pos), if_neg (by simp [hj'])]
        rw [h1, h2]
        simp only [applyOp, hat, hbt]
        rw [hpa, hpb, heq]
        have e1 : ((pb : Int)).toNat = pb := by omega
        have e2 : ((pb : Int) + (b.text.length : Int)).toNat = pb + b.text.length := by
          omega
        rw [e1, e2]
        exact (ins_ins_comm s b.text a.text pb pb le_rfl hpbs).symm
      · have hj0 : jsLt b.clientId a.clientId = false := by simpa using hj
        have hne : a.clientId ≠ b.clientId := hii hat hbt (by omega)
        have hj2 : jsLt a.clientId b.clientId = true := by
          by_contra h
          exact hne (jsLt_conn (by simpa using h) hj0)
        have h1 : ServerTransform.transformInsertInsert a b = a := by
          simp only [ServerTransform.transformInsertInsert]
          rw [if_neg (by omega : ¬ b.pos < a.pos),
              if_neg (by omega : ¬ b.pos > a.pos), if_neg (by simp [hj0])]
        have h2 : ServerTransform.transformInsertInsert b a
            = { b with pos := b.pos + (a.text.length : Int) } := by
          simp only [ServerTransform.transformInsertInsert]
          rw [if_neg (by omega : ¬ a.pos < b.pos),
              if_neg (by omega : ¬ a.pos > b.pos), if_pos hj2]
        rw [h1, h2]
        simp only [applyOp, hat, hbt]
        rw [hpa, hpb, heq]
        have e1 : ((pb : Int)).toNat = pb := by omega
        have e2 : ((pb : Int) + (a.text.length : Int)).toNat = pb + a.text.length := by
          omega
        rw [e1, e2]
        exact ins_ins_comm s a.text b.text pb pb le_rfl hpbs
    · have h1 : ServerTransform.transformInsertInsert a b
          = { a with pos := a.pos + (b.text.length : Int) } := by
        simp only [ServerTransform.transformInsertInsert]
        rw [if_pos (by omega : b.pos < a.pos)]
      have h2 : ServerTransform.transformInsertInsert b a = b := by
        simp only [ServerTransform.transformInsertInsert]
        rw [if_neg (by omega : ¬ a.pos < b.pos), if_pos (by omega : a.pos > b.pos)]
      rw [h1, h2]
      simp only [applyOp, hat, hbt]
      rw [hpa, hpb]
      have e1 : ((pb : Int)).toNat = pb := by omega
      have e2 : ((pa : Int)).toNat = pa := by omega
      have e3 : ((pa : Int) + (b.text.length : Int)).toNat = pa + b.text.length := by
        omega
      rw [e1, e2, e3]
      exact (ins_ins_comm s b.text a.text pb pa (le_of_lt hgt) hpas).symm
  · -- insert / delete
    obtain ⟨pa, hpa⟩ : ∃ n : ℕ, a.pos = (n : Int) := ⟨a.pos.toNat, by omega⟩
    obtain ⟨pb, hpb⟩ : ∃ n : ℕ, b.pos = (n : Int) := ⟨b.pos.toNat, by omega⟩
    obtain ⟨lb, hlb⟩ : ∃ n : ℕ, b.len = (n : Int) := ⟨b.len.toNat, by omega⟩
    have hreg := hid hat hbt
    simp only [ServerTransform.transform, hat, hbt]
    by_cases hc : a.pos ≤ b.pos
    · have h1 : ServerTransform.transformInsertDelete a b = a := by
        simp only [ServerTransform.transformInsertDelete]
        rw [if_pos hc]
      have h2 : ServerTransform.transformDeleteInsert b a
          = { b with pos := b.pos + (a.text.length : Int) } := by
        simp only [ServerTransform.transformDeleteInsert]
        rw [if_pos hc]
      rw [h1, h2]
      simp only [applyOp, hat, hbt]
      rw [hpa, hpb, hlb]
      have e1 : ((pb : Int)).toNat = pb := by omega
      have e2 : ((pa : Int)).toNat = pa := by omega
      have e3 : ((lb : Int)).toNat = lb := by omega
      have e4 : ((pb : Int) + (a.text.length : Int)).toNat = pb + a.text.length := by
        omega
      rw [e1, e2, e3, e4]
      exact ins_del_left s a.text pa pb lb (by omega) (by omega)
    · by_cases hc2 : a.pos ≥ b.pos + b.len
      · have h1 : ServerTransform.transformInsertDelete a b
            = { a with pos := a.pos - b.len } := by
          simp only [ServerTransform.transformInsertDelete]
          rw [if_neg hc, if_pos hc2]
        have h2 : ServerTransform.transformDeleteInsert b a = b := by
          simp only [ServerTransform.transformDeleteInsert]
          rw [if_neg hc, if_pos hc2]
        rw [h1, h2]
        simp only [applyOp, hat, hbt]
        rw [hpa, hpb, hlb]
        have e1 : ((pb : Int)).toNat = pb := by omega
        have e2 : ((lb : Int)).toNat = lb := by omega
        have e3 : ((pa : Int) - (lb : Int)).toNat = pa - lb := by omega
        rw [e1, e2, e3]
        exact ins_del_right s a.text pa pb lb (by omega) (by omega)
      · exact absurd ⟨by omega, by omega⟩ hreg
  · -- delete / insert
    obtain ⟨pa, hpa⟩ : ∃ n : ℕ, a.pos = (n : Int) := ⟨a.pos.toNat, by omega⟩
    obtain ⟨la, hla⟩ : ∃ n : ℕ, a.len = (n : Int) := ⟨a.len.toNat, by omega⟩
    obtain ⟨pb, hpb⟩ : ∃ n : ℕ, b.pos = (n : Int) := ⟨b.pos.toNat, by omega⟩
    have hreg := hdi hat hbt
    simp only [ServerTransform.transform, hat, hbt]
    by_cases hc : b.pos ≤ a.pos
    · have h1 : ServerTransform.transformDeleteInsert a b
          = { a with pos := a.pos + (b.text.length : Int) } := by
        simp only [ServerTransform.transformDeleteInsert]
        rw [if_pos hc]
      have h2 : ServerTransform.transformInsertDelete b a = b := by
        simp only [ServerTransform.transformInsertDelete]
        rw [if_pos hc]
      rw [h1, h2]
      simp only [applyOp, hat, hbt]
      rw [hpa, hpb, hla]
      have e1 : ((pb : Int)).toNat = pb := by omega
      have e2 : ((la : Int)).toNat = la := by omega
      have e3 : ((pa : Int)).toNat = pa := by omega
      have e4 : ((pa : Int) + (b.text.length : Int)).toNat = pa + b.text.length := by
        omega
      rw [e1, e2, e3, e4]
      exact (ins_del_left s b.text pb pa la (by omega) (by omega)).symm
    · by_cases hc2 : b.pos ≥ a.pos + a.len
      · have h1 : ServerTransform.transformDeleteInsert a b = a := by
          simp only [ServerTransform.transformDeleteInsert]
          rw [if_neg hc, if_pos hc2]
        have h2 : ServerTransform.transformInsertDelete b a
            = { b with pos := b.pos - a.len } := by
          simp only [ServerTransform.transformInsertDelete]
          rw [if_neg hc, if_pos hc2]
        rw [h1, h2]
        simp only [applyOp, hat, hbt]
        rw [hpa, hpb, hla]
        have e1 : ((pb : Int)).toNat = pb := by omega
        have e2 : ((la : Int)).toNat = la := by omega
        have e3 : ((pa : Int)).toNat = pa := by omega
        have e4 : ((pb : Int) - (la : Int)).toNat = pb - la := by omega
        rw [e1, e2, e3, e4]
        exact (ins_del_right s b.text pb pa la (by omega) (by omega)).symm
      · exact absurd ⟨by omega, by omega⟩ hreg
  · -- delete / delete
    obtain ⟨pa, hpa⟩ : ∃ n : ℕ, a.pos = (n : Int) := ⟨a.pos.toNat, by omega⟩
    obtain ⟨la, hla⟩ : ∃ n : ℕ, a.len = (n : Int) := ⟨a.len.toNat, by omega⟩
    obtain ⟨pb, hpb⟩ : ∃ n : ℕ, b.pos = (n : Int) := ⟨b.pos.toNat, by omega⟩
    obtain ⟨lb, hlb⟩ : ∃ n : ℕ, b.len = (n : Int) := ⟨b.len.toNat, by omega⟩
    simp only [ServerTransform.transform, hat, hbt]
    by_cases r1 : b.pos + b.len ≤ a.pos
    · have h1 : ServerTransform.transformDeleteDelete a b
          = { a with pos := a.pos - b.len } := by
        simp only [ServerTransform.transformDeleteDelete]
        rw [if_pos r1]
      have h2 : ServerTransform.transformDeleteDelete b a = b := by
        simp only [ServerTransform.transformDeleteDelete]
        rw [if_neg (by omega : ¬ a.pos + a.len ≤ b.pos), if_pos (by omega : a.pos ≥ b.pos + b.len)]
      rw [h1, h2]
      simp only [applyOp, hat, hbt]
      rw [hpa, hpb, hla, hlb]
      have e1 : ((pb : Int)).toNat = pb := by omega
      have e2 : ((lb : Int)).toNat = lb := by omega
      have e3 : ((pa : Int)).toNat = pa := by omega
      have e4 : ((la : Int)).toNat = la := by omega
      have e5 : ((pa : Int) - (lb : Int)).toNat = pa - lb := by omega
      rw [e1, e2, e3, e4, e5]
      exact del_del_disjoint s pa la pb lb (by omega) (by omega)
    · by_cases r2 : a.pos + a.len ≤ b.pos
      · have h1 : ServerTransform.transformDeleteDelete a b = a := by
          simp only [ServerTransform.transformDeleteDelete]
          rw [if_neg r1, if_pos (by omega : b.pos ≥ a.pos + a.len)]
        have h2 : ServerTransform.transformDeleteDelete b a
            = { b with pos := b.pos - a.len } := by
          simp only [ServerTransform.transformDeleteDelete]
          rw [if_pos (by omega : a.pos + a.len ≤ b.pos)]
        rw [h1, h2]
        simp only [applyOp, hat, hbt]
        rw [hpa, hpb, hla, hlb]
        have e1 : ((pb : Int)).toNat = pb := by omega
        have e2 : ((lb : Int)).toNat = lb := by omega
        have e3 : ((pa : Int)).toNat = pa := by omega
        have e4 : ((la : Int)).toNat = la := by omega
        have e5 : ((pb : Int) - (la : Int)).toNat = pb - la := by omega
        rw [e1, e2, e3, e4, e5]
        exact (del_del_disjoint s pb lb pa la (by omega) (by omega)).symm
      · by_cases c3 : b.pos ≤ a.pos ∧ b.pos + b.len ≥ a.pos + a.len
        · have h1 : ServerTransform.transformDeleteDelete a b
              = { a with pos := b.pos, len := 0 } := by
            simp only [ServerTransform.transformDeleteDelete]
            rw [if_neg r1, if_neg (by omega : ¬ b.pos ≥ a.pos + a.len), if_pos c3]
          by_cases c3' : a.pos ≤ b.pos ∧ a.pos + a.len ≥ b.pos + b.len
          · -- equal ranges
            have h2 : ServerTransform.transformDeleteDelete b a
                = { b with pos := a.pos, len := 0 } := by
              simp only [ServerTransform.transformDeleteDelete]
              rw [if_neg (by omega : ¬ a.pos + a.len ≤ b.pos),
                  if_neg (by omega : ¬ a.pos ≥ b.pos + b.len), if_pos c3']
            rw [h1, h2]
            simp only [applyOp, hat, hbt]
            rw [hpa, hpb, hla, hlb]
            have e1 : ((pb : Int)).toNat = pb := by omega
            have e2 : ((lb : Int)).toNat = lb := by omega
            have e3 : ((pa : Int)).toNat = pa := by omega
            have e4 : ((la : Int)).toNat = la := by omega
            have e5 : ((0 : Int)).toNat = 0 := by omega
            rw [e1, e2, e3, e4, e5]
            rw [splice_del_zero, splice_del_zero]
            have hpp : pa = pb := by omega
            have hll : la = lb := by omega
            rw [hpp, hll]
          · have h2 : ServerTransform.transformDeleteDelete b a
                = { b with len := b.len - a.len } := by
              simp only [ServerTransform.transformDeleteDelete]
              rw [if_neg (by omega : ¬ a.pos + a.len ≤ b.pos),
                  if_neg (by omega : ¬ a.pos ≥ b.pos + b.len), if_neg c3',
                  if_pos (⟨c3.1, c3.2⟩ : b.pos ≤ a.pos ∧ b.pos + b.len ≥ a.pos + a.len)]
            rw [h1, h2]
            simp only [applyOp, hat, hbt]
            rw [hpa, hpb, hla, hlb]
            have e1 : ((pb : Int)).toNat = pb := by omega
            have e2 : ((lb : Int)).toNat = lb := by omega
            have e3 : ((pa : Int)).toNat = pa := by omega
            have e4 : ((la : Int)).toNat = la := by omega
            have e5 : ((0 : Int)).toNat = 0 := by omega
            have e6 : ((lb : Int) - (la : Int)).toNat = lb - la := by omega
            rw [e1, e2, e3, e4, e5, e6]
            rw [splice_del_zero]
            exact (del_del_nested s pb lb pa la (by omega) (by omega) (by omega)).symm
        · by_cases c4 : a.pos ≤ b.pos ∧ a.pos + a.len ≥ b.pos + b.len
          · have h1 : ServerTransform.transformDeleteDelete a b
                = { a with len := a.len - b.len } := by
              simp only [ServerTransform.transformDeleteDelete]
              rw [if_neg r1, if_neg (by omega : ¬ b.pos ≥ a.pos + a.len), if_neg c3,
                  if_pos c4]
            have h2 : ServerTransform.transformDeleteDelete b a
                = { b with pos := a.pos, len := 0 } := by
              simp only [ServerTransform.transformDeleteDelete]
              rw [if_neg (by omega : ¬ a.pos + a.len ≤ b.pos),
                  if_neg (by omega : ¬ a.pos ≥ b.pos + b.len),
                  if_pos (⟨c4.1, c4.2⟩ : a.pos ≤ b.pos ∧ a.pos + a.len ≥ b.pos + b.len)]
            rw [h1, h2]
            simp only [applyOp, hat, hbt]
            rw [hpa, hpb, hla, hlb]
            have e1 : ((pb : Int)).toNat = pb := by omega
            have e2 : ((lb : Int)).toNat = lb := by omega
            have e3 : ((pa : Int)).toNat = pa := by omega
            have e4 : ((la : Int)).toNat = la := by omega
            have e5 : ((0 : Int)).toNat = 0 := by omega
            have e6 : ((la : Int) - (lb : Int)).toNat = la - lb := by omega
            rw [e1, e2, e3, e4, e5, e6]
            rw [splice_del_zero]
            exact del_del_nested s pa la pb lb (by omega) (by omega) (by omega)
          · by_cases hside : b.pos < a.pos
            · -- b overlaps a from the left, strictly
              have h1 : ServerTransform.transformDeleteDelete a b
                  = { a with pos := b.pos, len := a.pos + a.len - (b.pos + b.len) } := by
                simp only [ServerTransform.transformDeleteDelete]
                rw [if_neg r1, if_neg (by omega : ¬ b.pos ≥ a.pos + a.len), if_neg c3,
                    if_neg (by omega : ¬ (a.pos ≤ b.pos ∧ a.pos + a.len ≥ b.pos + b.len)),
                    if_pos (⟨hside, by omega, by omega⟩ :
                      b.pos < a.pos ∧ b.pos + b.len > a.pos ∧ b.pos + b.len < a.pos + a.len)]
              have h2 : ServerTransform.transformDeleteDelete b a
                  = { b with len := a.pos - b.pos } := by
                simp only [ServerTransform.transformDeleteDelete]
                rw [if_neg (by omega : ¬ a.pos + a.len ≤ b.pos),
                    if_neg (by omega : ¬ a.pos ≥ b.pos + b.len),
                    if_neg (by omega : ¬ (a.pos ≤ b.pos ∧ a.pos + a.len ≥ b.pos + b.len)),
                    if_neg (by omega : ¬ (b.pos ≤ a.pos ∧ b.pos + b.len ≥ a.pos + a.len)),
                    if_neg (by omega : ¬ (a.pos < b.pos ∧ a.pos + a.len > b.pos ∧ a.pos + a.len < b.pos + b.len)),
                    if_pos (⟨by omega, by omega, by omega⟩ :
                      a.pos > b.pos ∧ a.pos < b.pos + b.len ∧ a.pos + a.len ≥ b.pos + b.len)]
              rw [h1, h2]
              simp only [applyOp, hat, hbt]
              rw [hpa, hpb, hla, hlb]
              have e1 : ((pb : Int)).toNat = pb := by omega
              have e2 : ((lb : Int)).toNat = lb := by omega
              have e3 : ((pa : Int)).toNat = pa := by omega
              have e4 : ((la : Int)).toNat = la := by omega
              have e5 : ((pa : Int) + la - ((pb : Int) + lb)).toNat = pa + la - (pb + lb) := by
                omega
              have e6 : ((pa : Int) - (pb : Int)).toNat = pa - pb := by omega
              rw [e1, e2, e3, e4, e5, e6]
              rw [del_del_overlap_inner s pa la pb lb (by omega) (by omega),
                  del_del_overlap_outer s pa la pb (by omega) (by omega)]
            · -- a strictly left of b, overlapping from the right
              have hpab : a.pos < b.pos := by omega
              have h1 : ServerTransform.transformDeleteDelete a b
                  = { a with len := b.pos - a.pos } := by
                simp only [ServerTransform.transformDeleteDelete]
                rw [if_neg r1, if_neg (by omega : ¬ b.pos ≥ a.pos + a.len), if_neg c3,
                    if_neg c4,
                    if_neg (by omega : ¬ (b.pos < a.pos ∧ b.pos + b.len > a.pos ∧ b.pos + b.len < a.pos + a.len)),
                    if_pos (⟨by omega, by omega, by omega⟩ :
                      b.pos > a.pos ∧ b.pos < a.pos + a.len ∧ b.pos + b.len ≥ a.pos + a.len)]
              have h2 : ServerTransform.transformDeleteDelete b a
                  = { b with pos := a.pos, len := b.pos + b.len - (a.pos + a.len) } := by
                simp only [ServerTransform.transformDeleteDelete]
                rw [if_neg (by omega : ¬ a.pos + a.len ≤ b.pos),
                    if_neg (by omega : ¬ a.pos ≥ b.pos + b.len),
                    if_neg (by omega : ¬ (a.pos ≤ b.pos ∧ a.pos + a.len ≥ b.pos + b.len)),
                    if_neg (by omega : ¬ (b.pos ≤ a.pos ∧ b.pos + b.len ≥ a.pos + a.len)),
                    if_pos (⟨by omega, by omega, by omega⟩ :
                      a.pos < b.pos ∧ a.pos + a.len > b.pos ∧ a.pos + a.len < b.pos + b.len)]
              rw [h1, h2]
              simp only [applyOp, hat, hbt]
              rw [hpa, hpb, hla, hlb]
              have e1 : ((pb : Int)).toNat = pb := by omega
              have e2 : ((lb : Int)).toNat = lb := by omega
              have e3 : ((pa : Int)).toNat = pa := by omega
              have e4 : ((la : Int)).toNat = la := by omega
              have e5 : ((pb : Int) + lb - ((pa : Int) + la)).toNat = pb + lb - (pa + la) := by
                omega
              have e6 : ((pb : Int) - (pa : Int)).toNat = pb - pa := by omega
              rw [e1, e2, e3, e4, e5, e6]
              rw [del_del_overlap_outer s pb lb pa (by omega) (by omega),
                  del_del_overlap_inner s pb lb pa la (by omega) (by omega)]

/-- C1 counterexample input: insert strictly inside a concurrent delete. -/
def c1xa : Op :=
  { type := .insert, pos := 2, clientId := "A", clientSeq := 1,
    text := "X".toList, len := 0 }

/-- C1 counterexample input: the concurrent delete. -/
def c1xb : Op :=
  { type := .delete, pos := 1, clientId := "B", clientSeq := 1,
    text := [], len := 3 }

/-- C1 (counterexample): TP1 as claimed fails on the well-formed pair
`a = insert(2, "X")`, `b = delete(1, 3)` against base `"abcde"`: applying
`b` then `transform(a,b)` yields `"aXe"` while applying `a` then
`transform(b,a)` yields `"ae"`. -/
theorem c1_tp1_counterexample :
    WfOp c1xa "abcde".toList ∧ WfOp c1xb "abcde".toList ∧
    applyOp (applyOp "abcde".toList c1xb) (ServerTransform.transform c1xa c1xb)
      ≠ applyOp (applyOp "abcde".toList c1xa) (ServerTransform.transform c1xb c1xa) := by
  decide

/-- C1 witness input: an insert away from the deleted range. -/
def c1wa : Op :=
  { type := .insert, pos := 1, clientId := "A", clientSeq := 1,
    text := "xy".toList, len := 0 }

/-- C1 witness input: a concurrent delete. -/
def c1wb : Op :=
  { type := .delete, pos := 2, clientId := "B", clientSeq := 1,
    text := [], len := 2 }

/-- C1 witness: the amended TP1 theorem applied at a concrete input. -/
theorem c1_tp1_witness :
    WfOp c1wa "hello".toList ∧ WfOp c1wb "hello".toList ∧
    applyOp (applyOp "hello".toList c1wb) (ServerTransform.transform c1wa c1wb)
      = applyOp (applyOp "hello".toList c1wa) (ServerTransform.transform c1wb c1wa) :=
  ⟨by decide, by decide,
    c1_tp1_amended c1wa c1wb "hello".toList (by decide) (by decide) (by decide)
      (by decide) (by decide)⟩

/-! ### C2: the concrete two-insert scenario -/

/-- C2 input: client A's insert. -/
def c2a : Op :=
  { type := .insert, pos := 5, clientId := "A", clientSeq := 1,
    text := " world".toList, len := 0 }

/-- C2 input: client B's insert. -/
def c2b : Op :=
  { type := .insert, pos := 5, clientId := "B", clientSeq := 1,
    text := "!".toList, len := 0 }

/-- C2 (code bug): on base `"hello"` with A's `insert(5, " world")` and
B's `insert(5, "!")`, the code's mutual transform makes both replicas
converge to `"hello world!"` — not the `"hello! world"` that the claim
(and the repository's own `e2e.test.ts` first test) expects. -/
theorem c2_concrete_scenario_bug :
    applyOp (applyOp "hello".toList c2b) (ServerTransform.transform c2a c2b)
      = "hello world!".toList
    ∧ applyOp (applyOp "hello".toList c2a) (ServerTransform.transform c2b c2a)
      = "hello world!".toList
    ∧ "hello world!".toList ≠ "hello! world".toList := by
  decide

/-! ### C3: the insert-insert tie-break -/

lemma ins_ins_here (s t u : List Char) (p : Nat) (hp : p ≤ s.length) :
    spliceInsert (spliceInsert s p u) p t
      = s.take p ++ (t ++ (u ++ s.drop p)) := by
  have hp' : p ≤ (s.take p).length := by simp; omega
  simp only [spliceInsert, List.append_assoc]
  rw [List.take_append_of_le_length hp', List.drop_append_of_le_length hp']
  rw [List.take_take, min_self, List.drop_take]
  simp

lemma ins_ins_at (s t u : List Char) (p : Nat) (hp : p ≤ s.length) :
    spliceInsert (spliceInsert s p u) (p + u.length) t
      = s.take p ++ (u ++ (t ++ s.drop p)) := by
  have hp' : (s.take p).length = p := by simp; omega
  simp only [spliceInsert, List.append_assoc]
  rw [List.take_append_eq_append_take, List.drop_append_eq_append_drop, hp']
  rw [List.take_of_length_le (by omega : (s.take p).length ≤ p + u.length),
      List.drop_of_length_le (by omega : (s.take p).length ≤ p + u.length)]
  have e : p + u.length - p = u.length := by omega
  rw [e, List.take_append_eq_append_take, List.drop_append_eq_append_drop]
  simp

/-- C3 (confirmed): when `a` and `b` are co-located inserts,
`transform(a,b)` shifts `a` right by `|b.text|` exactly when
`b.clientId < a.clientId` (JS lexicographic order), and returns `a`
unchanged otherwise; consequently, for distinct client ids and an
in-bounds position, both application orders converge to
`prefix ++ t_lo ++ t_hi ++ suffix` where `lo` is the op with the
lexicographically smaller client id. -/
theorem c3_insert_insert_tiebreak (a b : Op) (s : List Char)
    (hat : a.type = .insert) (hbt : b.type = .insert) (hpos : a.pos = b.pos) :
    (ServerTransform.transform a b
      = if jsLt b.clientId a.clientId then
          { a with pos := a.pos + (b.text.length : Int) }
        else a)
    ∧ (a.clientId ≠ b.clientId → 0 ≤ a.pos → a.pos ≤ (s.length : Int) →
        applyOp (applyOp s b) (ServerTransform.transform a b)
          = s.take a.pos.toNat
              ++ ((if jsLt a.clientId b.clientId = true then a.text else b.text)
              ++ ((if jsLt a.clientId b.clientId = true then b.text else a.text)
              ++ s.drop a.pos.toNat))
        ∧ applyOp (applyOp s a) (ServerTransform.transform b a)
          = s.take a.pos.toNat
              ++ ((if jsLt a.clientId b.clientId = true then a.text else b.text)
              ++ ((if jsLt a.clientId b.clientId = true then b.text else a.text)
              ++ s.drop a.pos.toNat))) := by
  have htr : ServerTransform.transform a b
      = if jsLt b.clientId a.clientId then
          { a with pos := a.pos + (b.text.length : Int) }
        else a := by
    simp only [ServerTransform.transform, hat, hbt,
      ServerTransform.transformInsertInsert]
    rw [if_neg (by omega : ¬ b.pos < a.pos), if_neg (by omega : ¬ b.pos > a.pos)]
  refine ⟨htr, fun hne h0 hle => ?_⟩
  have htr' : ServerTransform.transform b a
      = if jsLt a.clientId b.clientId then
          { b with pos := b.pos + (a.text.length : Int) }
        else b := by
    simp only [ServerTransform.transform, hat, hbt,
      ServerTransform.transformInsertInsert]
    rw [if_neg (by omega : ¬ a.pos < b.pos), if_neg (by omega : ¬ a.pos > b.pos)]
  obtain ⟨p, hp⟩ : ∃ n : ℕ, a.pos = (n : Int) := ⟨a.pos.toNat, by omega⟩
  have hps : p ≤ s.length := by omega
  by_cases hj : jsLt b.clientId a.clientId = true
  · -- b's id is smaller: b's text goes first
    have hj' : jsLt a.clientId b.clientId = false := jsLt_asymm hj
    rw [htr, htr']
    simp only [hj, hj', Bool.false_eq_true, if_true, if_false, ite_true, ite_false,
      eq_self_iff_true]
    simp only [applyOp, hat, hbt]
    rw [hp, hpos.symm, hp]
    have e1 : ((p : Int)).toNat = p := by omega
    have e2 : ((p : Int) + (b.text.length : Int)).toNat = p + b.text.length := by omega
    rw [e1, e2]
    exact ⟨ins_ins_at s a.text b.text p hps, ins_ins_here s b.text a.text p hps⟩
  · have hj0 : jsLt b.clientId a.clientId = false := by simpa using hj
    have hj2 : jsLt a.clientId b.clientId = true := by
      by_contra h
      exact hne (jsLt_conn (by simpa using h) hj0)
    rw [htr, htr']
    simp only [hj0, hj2, Bool.false_eq_true, if_true, if_false, ite_true, ite_false,
      eq_self_iff_true]
    simp only [applyOp, hat, hbt]
    rw [hp, hpos.symm, hp]
    have e1 : ((p : Int)).toNat = p := by omega
    have e2 : ((p : Int) + (a.text.length : Int)).toNat = p + a.text.length := by omega
    rw [e1, e2]
    exact ⟨ins_ins_here s a.text b.text p hps, ins_ins_at s b.text a.text p hps⟩

/-- C3 witness input: client A's co-located insert. -/
def c3wa : Op :=
  { type := .insert, pos := 5, clientId := "A", clientSeq := 1,
    text := " world".toList, len := 0 }

/-- C3 witness input: client B's co-located insert. -/
def c3wb : Op :=
  { type := .insert, pos := 5, clientId := "B", clientSeq := 1,
    text := "!".toList, len := 0 }

/-- C3 witness: the tie-break theorem applied at a concrete co-located
pair with distinct client ids. -/
theorem c3_insert_insert_tiebreak_witness :
    (ServerTransform.transform c3wa c3wb
      = if jsLt c3wb.clientId c3wa.clientId then
          { c3wa with pos := c3wa.pos + (c3wb.text.length : Int) }
        else c3wa)
    ∧ applyOp (applyOp "hello".toList c3wb) (ServerTransform.transform c3wa c3wb)
        = "hello".toList.take c3wa.pos.toNat
            ++ ((if jsLt c3wa.clientId c3wb.clientId = true then c3wa.text else c3wb.text)
            ++ ((if jsLt c3wa.clientId c3wb.clientId = true then c3wb.text else c3wa.text)
            ++ "hello".toList.drop c3wa.pos.toNat))
    ∧ applyOp (applyOp "hello".toList c3wa) (ServerTransform.transform c3wb c3wa)
        = "hello".toList.take c3wa.pos.toNat
            ++ ((if jsLt c3wa.clientId c3wb.clientId = true then c3wa.text else c3wb.text)
            ++ ((if jsLt c3wa.clientId c3wb.clientId = true then c3wb.text else c3wa.text)
            ++ "hello".toList.drop c3wa.pos.toNat)) := by
  have h := c3_insert_insert_tiebreak c3wa c3wb "hello".toList
    (by decide) (by decide) (by decide)
  have h2 := h.2 (by decide) (by decide) (by decide)
  exact ⟨h.1, h2.1, h2.2⟩

/-! ### C10: server/client transform agreement -/

/-- C10 (amended): the client transform of `rebase.ts` and the server
transform of `transform.ts` return identical operations for every pair of
well-formed operations (deletes with `len ≥ 0`), provided co-located
inserts carry distinct client ids — with equal ids the two tie-breaks
disagree (see the counterexample). -/
theorem c10_transform_agreement_amended (a b : Op)
    (hla : a.type = .delete → 0 ≤ a.len) (hlb : b.type = .delete → 0 ≤ b.len)
    (hii : a.type = .insert → b.type = .insert → a.pos = b.pos →
      a.clientId ≠ b.clientId) :
    ClientRebase.transform a b = ServerTransform.transform a b := by
  obtain ⟨ta, pa, ca, qa, xa, la, sa⟩ := a
  obtain ⟨tb, pb, cb, qb, xb, lb, sb⟩ := b
  cases ta <;> cases tb <;>
    simp only [ClientRebase.transform, ServerTransform.transform,
      ServerTransform.transformInsertInsert, ServerTransform.transformInsertDelete,
      ServerTransform.transformDeleteInsert, ServerTransform.transformDeleteDelete] at *
  · -- insert / insert
    simp only [and_self, and_false, false_and, if_true, if_false, ite_true, ite_false,
      reduceCtorEq, and_true, true_and] at *
    rcases lt_trichotomy pa pb with hlt | heq | hgt
    · rw [if_pos hlt, if_neg (by omega : ¬ pb < pa), if_pos (by omega : pb > pa)]
    · subst heq
      have hne : ca ≠ cb := by simp at hii; exact hii
      rw [if_neg (by omega : ¬ pa < pa), if_neg (by omega : ¬ pa > pa),
          if_neg (by omega : ¬ pa < pa), if_neg (by omega : ¬ pa > pa)]
      by_cases hj : jsLt ca cb = true
      · rw [if_pos hj, if_neg (by simp [jsLt_asymm hj])]
      · have hj0 : jsLt ca cb = false := by simpa using hj
        have hj2 : jsLt cb ca = true := by
          by_contra h
          exact hne (jsLt_conn hj0 (by simpa using h))
        rw [if_neg (by simp [hj0]), if_pos hj2]
    · rw [if_neg (by omega : ¬ pa < pb), if_pos (by omega : pa > pb),
          if_pos (by omega : pb < pa)]
  · -- insert / delete: textually the same case analysis
    simp only [and_self, and_false, false_and, if_true, if_false, ite_true, ite_false,
      reduceCtorEq, and_true, true_and, reduceIte] at *
  · -- delete / insert
    simp only [and_self, and_false, false_and, if_true, if_false, ite_true, ite_false,
      reduceCtorEq, and_true, true_and, reduceIte] at *
    by_cases h1 : pa < pb
    · rw [if_pos h1]
      by_cases h2 : pa + la ≤ pb
      · rw [if_pos h2, if_neg (by omega : ¬ pb ≤ pa)]
      · rw [if_neg h2, if_neg (by omega : ¬ pb ≤ pa)]
    · rw [if_neg h1, if_pos (by omega : pb ≤ pa)]
  · -- delete / delete
    simp only [and_self, and_false, false_and, if_true, if_false, ite_true, ite_false,
      reduceCtorEq, and_true, true_and, reduceIte, true_implies] at *
    have hla' : (0 : Int) ≤ la := hla
    have hlb' : (0 : Int) ≤ lb := hlb
    by_cases h1 : pa + la ≤ pb
    · rw [if_pos h1]
      by_cases h2 : pb + lb ≤ pa
      · have hla0 : la = 0 := by omega
        have hlb0 : lb = 0 := by omega
        rw [if_pos h2]
        simp [hlb0]
      · rw [if_neg h2, if_pos (by omega : pb ≥ pa + la)]
    · rw [if_neg h1]
      by_cases h2 : pa ≥ pb + lb
      · rw [if_pos h2, if_pos (by omega : pb + lb ≤ pa)]
      · rw [if_neg h2, if_neg (by omega : ¬ pb + lb ≤ pa),
            if_neg (by omega : ¬ pb ≥ pa + la)]
        by_cases c3 : pb ≤ pa ∧ pb + lb ≥ pa + la
        · rw [if_pos c3]
          simp only [Op.mk.injEq, and_true, true_and]
          exact ⟨by omega, by omega⟩
        · rw [if_neg c3]
          by_cases c4 : pa ≤ pb ∧ pa + la ≥ pb + lb
          · rw [if_pos c4]
            simp only [Op.mk.injEq, and_true, true_and]
            exact ⟨by omega, by omega⟩
          · by_cases c5 : pb < pa ∧ pb + lb > pa ∧ pb + lb < pa + la
            · rw [if_neg c4, if_pos c5]
              simp only [Op.mk.injEq, and_true, true_and]
              exact ⟨by omega, by omega⟩
            · rw [if_neg c4, if_neg c5,
                  if_pos (⟨by omega, by omega, by omega⟩ :
                    pb > pa ∧ pb < pa + la ∧ pb + lb ≥ pa + la)]
              simp only [Op.mk.injEq, and_true, true_and]
              exact ⟨by omega, by omega⟩

/-- C10 counterexample input: an insert at 0 by client `"A"`. -/
def c10xa : Op :=
  { type := .insert, pos := 0, clientId := "A", clientSeq := 1,
    text := "x".toList, len := 0 }

/-- C10 counterexample input: another insert at 0 by the same client. -/
def c10xb : Op :=
  { type := .insert, pos := 0, clientId := "A", clientSeq := 2,
    text := "y".toList, len := 0 }

/-- C10 (counterexample): on two co-located inserts with equal client
ids, the client transform shifts (its tie `op1.clientId < op2.clientId`
is false) while the server transform does not shift (its tie
`opB.clientId < opA.clientId` is also false): the returned positions
differ, refuting the claimed agreement for all well-formed pairs. -/
theorem c10_transform_agreement_counterexample :
    (ClientRebase.transform c10xa c10xb).pos = 1
    ∧ (ServerTransform.transform c10xa c10xb).pos = 0
    ∧ (ClientRebase.transform c10xa c10xb).pos
        ≠ (ServerTransform.transform c10xa c10xb).pos := by
  decide

/-- C10 witness input: a delete overlapping another delete. -/
def c10wa : Op :=
  { type := .delete, pos := 2, clientId := "A", clientSeq := 1,
    text := [], len := 3 }

/-- C10 witness input: the other delete. -/
def c10wb : Op :=
  { type := .delete, pos := 3, clientId := "B", clientSeq := 1,
    text := [], len := 3 }

/-- C10 witness: the agreement theorem applied at a concrete overlapping
delete-delete pair (the case where the two formulas differ textually). -/
theorem c10_transform_agreement_witness :
    ClientRebase.transform c10wa c10wb = ServerTransform.transform c10wa c10wb :=
  c10_transform_agreement_amended c10wa c10wb (by decide) (by decide) (by decide)

/-! ### C7: atomicity of Apply on rope failure -/

/-- C7 (confirmed): when the rope application fails, `handleOperation`
leaves the session untouched — same rope, same log, same `serverSeq` —
sends no ack and broadcasts nothing; the requesting client gets exactly
one error frame. -/
theorem c7_apply_atomic_on_failure (doc : DocState) (op : Op) (e : String)
    (h : ropeApplyOp doc.rope op = .error e) :
    handleOperation doc op
      = { doc := doc
          toSender := [.errorFrame "Failed to apply operation"]
          broadcastFrame := none
          broadcastTo := [] } := by
  simp [handleOperation, h]

/-- C7 witness input: an out-of-bounds insert on an empty document. -/
def c7wop : Op :=
  { type := .insert, pos := 10, clientId := "A", clientSeq := 1,
    text := "x".toList, len := 0 }

/-- C7 witness: the atomicity theorem applied to a concrete failing
operation on a fresh document. -/
theorem c7_apply_atomic_on_failure_witness :
    ropeApplyOp (initDoc [⟨"A", true⟩]).rope c7wop
      = .error "Insert position out of bounds"
    ∧ handleOperation (initDoc [⟨"A", true⟩]) c7wop
      = { doc := initDoc [⟨"A", true⟩]
          toSender := [.errorFrame "Failed to apply operation"]
          broadcastFrame := none
          broadcastTo := [] } :=
  ⟨rfl,
    c7_apply_atomic_on_failure (initDoc [⟨"A", true⟩]) c7wop
      "Insert position out of bounds" rfl⟩

/-! ### C5: broadcast fan-out -/

/-- C5 (amended): after a successful apply the stamped op frame is
broadcast to every open client in the roster *including* the originator —
`handleOperation` calls `broadcast` without an exclusion id (the TS
comment reads "including sender for consistency"), so the originator
receives both the ack and the echoed op frame. -/
theorem c5_broadcast_fanout_amended (doc : DocState) (op : Op)
    (r : Option RopeNode) (h : ropeApplyOp doc.rope op = .ok r) :
    (handleOperation doc op).broadcastTo
      = (doc.clients.filter (fun c => c.isOpen)).map (fun c => c.id)
    ∧ (handleOperation doc op).broadcastFrame
      = some (.opFrame op (doc.serverSeq + 1))
    ∧ (handleOperation doc op).toSender = [.ack op.clientSeq (doc.serverSeq + 1)]
    ∧ ∀ c ∈ doc.clients, c.id = op.clientId → c.isOpen = true →
        op.clientId ∈ (handleOperation doc op).broadcastTo := by
  have hb : broadcastRecipients doc.clients none
      = (doc.clients.filter (fun c => c.isOpen)).map (fun c => c.id) := by
    unfold broadcastRecipients
    congr 1
  refine ⟨?_, ?_, ?_, ?_⟩
  · simp [handleOperation, h, hb]
  · simp [handleOperation, h]
  · simp [handleOperation, h]
  · intro c hc hid hopen
    simp only [handleOperation, h, hb]
    exact List.mem_map.mpr ⟨c, List.mem_filter.mpr ⟨hc, by simp [hopen]⟩, hid⟩

/-- C5 counterexample input: a valid insert from client `"A"`. -/
def c5xop : Op :=
  { type := .insert, pos := 0, clientId := "A", clientSeq := 1,
    text := "hi".toList, len := 0 }

/-- C5 (counterexample): with roster `["A", "B"]` (both open) and a
successful op from `"A"`, the broadcast recipients are `["A", "B"]` —
the originator is included, not excluded as the claim states. -/
theorem c5_broadcast_fanout_counterexample :
    (handleOperation (initDoc [⟨"A", true⟩, ⟨"B", true⟩]) c5xop).toSender
      = [.ack 1 1]
    ∧ (handleOperation (initDoc [⟨"A", true⟩, ⟨"B", true⟩]) c5xop).broadcastTo
      = ["A", "B"]
    ∧ (handleOperation (initDoc [⟨"A", true⟩, ⟨"B", true⟩]) c5xop).broadcastTo
      ≠ ["B"] := by
  decide

/-- C5 witness: the fan-out theorem applied at a concrete roster. -/
theorem c5_broadcast_fanout_witness :
    (handleOperation (initDoc [⟨"A", true⟩, ⟨"B", false⟩]) c5xop).broadcastTo
      = ((initDoc [⟨"A", true⟩, ⟨"B", false⟩]).clients.filter
          (fun c => c.isOpen)).map (fun c => c.id)
    ∧ "A" ∈ (handleOperation (initDoc [⟨"A", true⟩, ⟨"B", false⟩]) c5xop).broadcastTo := by
  have h := c5_broadcast_fanout_amended (initDoc [⟨"A", true⟩, ⟨"B", false⟩]) c5xop
    (some (.leaf "hi".toList)) rfl
  exact ⟨h.1, h.2.2.2 ⟨"A", true⟩ (by decide) (by decide) (by decide)⟩

/-! ### C4: the out-of-bounds policy on Apply -/

/-- C4 (amended): the server does not clamp.  A zero-effect operation
(insert with empty text, or delete with `len = 0`) skips the rope call
because of the JS truthiness guards, yet is still stamped with the next
server sequence number, logged, acked and broadcast — even if its
position is out of bounds.  An operation with an actual effect whose
position is out of bounds makes the rope throw: the request fails with a
single error frame, and `server_seq` does not advance. -/
theorem c4_invalid_position_policy (doc : DocState) (op : Op) :
    ((op.type = .insert ∧ op.text = []) ∨ (op.type = .delete ∧ op.len = 0) →
      handleOperation doc op
        = { doc := { doc with serverSeq := doc.serverSeq + 1, ops := doc.ops ++ [op] }
            toSender := [.ack op.clientSeq (doc.serverSeq + 1)]
            broadcastFrame := some (.opFrame op (doc.serverSeq + 1))
            broadcastTo := broadcastRecipients doc.clients none })
    ∧ (op.type = .insert → op.text ≠ [] →
        (op.pos < 0 ∨ op.pos > (Rope.length doc.rope : Int)) →
        handleOperation doc op
          = { doc := doc
              toSender := [.errorFrame "Failed to apply operation"]
              broadcastFrame := none
              broadcastTo := [] })
    ∧ (op.type = .delete → op.len ≠ 0 →
        (op.pos < 0 ∨ op.pos + op.len > (Rope.length doc.rope : Int)) →
        handleOperation doc op
          = { doc := doc
              toSender := [.errorFrame "Failed to apply operation"]
              broadcastFrame := none
              broadcastTo := [] }) := by
  refine ⟨?_, ?_, ?_⟩
  · intro h
    have hok : ropeApplyOp doc.rope op = .ok doc.rope := by
      rcases h with ⟨ht, hx⟩ | ⟨ht, hl⟩
      · simp [ropeApplyOp, ht, hx]
      · simp [ropeApplyOp, ht, hl]
    simp [handleOperation, hok]
  · intro ht hx hoob
    have herr : ropeApplyOp doc.rope op = .error "Insert position out of bounds" := by
      simp only [ropeApplyOp, ht, hx, and_true, true_and, if_true, ite_true,
        reduceCtorEq, eq_self_iff_true]
      rw [if_pos hx]
      simp [Rope.insert, hoob]
    simp [handleOperation, herr]
  · intro ht hl hoob
    have herr : ropeApplyOp doc.rope op = .error "Delete range out of bounds" := by
      have hne : ¬ (op.type = OpType.insert ∧ op.text ≠ []) := by simp [ht]
      simp only [ropeApplyOp]
      rw [if_neg hne, if_pos (⟨ht, hl⟩ : op.type = OpType.delete ∧ op.len ≠ 0)]
      simp [Rope.delete, hoob]
    simp [handleOperation, herr]

/-- C4 counterexample input: an out-of-bounds insert with real text. -/
def c4xop : Op :=
  { type := .insert, pos := 10, clientId := "A", clientSeq := 3,
    text := "x".toList, len := 0 }

/-- C4 (counterexample): an out-of-bounds insert on a fresh (empty)
document is *not* clamped and stamped as the claim states: the server
answers with a single error frame, `serverSeq` stays 0, nothing is
logged, nothing is broadcast. -/
theorem c4_invalid_position_counterexample :
    (handleOperation (initDoc [⟨"A", true⟩]) c4xop).toSender
      = [.errorFrame "Failed to apply operation"]
    ∧ (handleOperation (initDoc [⟨"A", true⟩]) c4xop).doc.serverSeq = 0
    ∧ (handleOperation (initDoc [⟨"A", true⟩]) c4xop).doc.ops = []
    ∧ (handleOperation (initDoc [⟨"A", true⟩]) c4xop).broadcastTo = [] := by
  decide

/-- C4 witness input: a zero-effect delete with an out-of-bounds position. -/
def c4wzero : Op :=
  { type := .delete, pos := 99, clientId := "A", clientSeq := 4,
    text := [], len := 0 }

/-- C4 witness: the policy theorem applied at concrete inputs — a
zero-effect op is stamped and broadcast even out of bounds, an effective
out-of-bounds op is rejected. -/
theorem c4_invalid_position_policy_witness :
    handleOperation (initDoc [⟨"A", true⟩]) c4wzero
      = { doc := { initDoc [⟨"A", true⟩] with serverSeq := 1, ops := [c4wzero] }
          toSender := [.ack 4 1]
          broadcastFrame := some (.opFrame c4wzero 1)
          broadcastTo := broadcastRecipients (initDoc [⟨"A", true⟩]).clients none }
    ∧ handleOperation (initDoc [⟨"A", true⟩]) c4xop
      = { doc := initDoc [⟨"A", true⟩]
          toSender := [.errorFrame "Failed to apply operation"]
          broadcastFrame := none
          broadcastTo := [] } :=
  ⟨(c4_invalid_position_policy (initDoc [⟨"A", true⟩]) c4wzero).1
      (Or.inr ⟨rfl, rfl⟩),
    (c4_invalid_position_policy (initDoc [⟨"A", true⟩]) c4xop).2.1
      rfl (by decide) (by decide)⟩

/-! ### C6: log monotonicity and stamping -/

lemma runOps_length_eq_serverSeq : ∀ (msgs : List Op) (doc : DocState),
    doc.ops.length = doc.serverSeq →
    (runOps doc msgs).ops.length = (runOps doc msgs).serverSeq
  | [], doc, h => h
  | op :: rest, doc, h => by
    have hstep : ((handleOperation doc op).doc).ops.length
        = ((handleOperation doc op).doc).serverSeq := by
      cases hr : ropeApplyOp doc.rope op with
      | ok r => simp [handleOperation, hr, h]
      | error e => simp [handleOperation, hr, h]
    simpa [runOps] using
      runOps_length_eq_serverSeq rest ((handleOperation doc op).doc) hstep

/-- C6 (amended): per successful apply, `serverSeq` advances by exactly
1 and the raw operation is appended to the log (a failed apply changes
neither); starting from a fresh document the log length always equals
`serverSeq`, so entry `k` is the op applied at `server_seq = k + 1` —
but the entries are stored as received, generally without a
`serverSeq` stamp (the stamp travels only in the broadcast frame). -/
theorem c6_log_monotonicity_amended :
    (∀ (doc : DocState) (op : Op),
      ((ropeApplyOp doc.rope op).isOk = true →
        (handleOperation doc op).doc.serverSeq = doc.serverSeq + 1
        ∧ (handleOperation doc op).doc.ops = doc.ops ++ [op])
      ∧ ((ropeApplyOp doc.rope op).isOk = false →
        (handleOperation doc op).doc = doc))
    ∧ (∀ (cs : List ClientConn) (msgs : List Op),
        (runOps (initDoc cs) msgs).ops.length
          = (runOps (initDoc cs) msgs).serverSeq) := by
  constructor
  · intro doc op
    constructor
    · intro hok
      cases hr : ropeApplyOp doc.rope op with
      | ok r => simp [handleOperation, hr]
      | error e => rw [hr] at hok; simp [Except.isOk, Except.toBool] at hok
    · intro hko
      cases hr : ropeApplyOp doc.rope op with
      | ok r => rw [hr] at hko; simp [Except.isOk, Except.toBool] at hko
      | error e => simp [handleOperation, hr]
  · intro cs msgs
    exact runOps_length_eq_serverSeq msgs (initDoc cs) rfl

/-- C6 counterexample input: a valid insert (carrying no stamp). -/
def c6xop : Op :=
  { type := .insert, pos := 0, clientId := "A", clientSeq := 1,
    text := "hi".toList, len := 0 }

/-- C6 (counterexample): after one successful apply, `serverSeq = 1` and
the log holds exactly the incoming op — but that entry's `serverSeq`
field is `none`, not `1`: the log entry does not carry
`server_seq == k+1`. -/
theorem c6_log_stamp_counterexample :
    (runOps (initDoc [⟨"A", true⟩]) [c6xop]).serverSeq = 1
    ∧ (runOps (initDoc [⟨"A", true⟩]) [c6xop]).ops = [c6xop]
    ∧ c6xop.serverSeq ≠ some 1 := by
  decide

/-! ### Rope lemmas: the split/concat structure preserves the string -/

lemma concat_toStr (x y : Option RopeNode) :
    Rope.toStr (concatenate x y) = Rope.toStr x ++ Rope.toStr y := by
  cases x <;> cases y <;> simp [concatenate, Rope.toStr, RopeNode.toStr]

lemma concat_wfB (x y : Option RopeNode) (hx : Rope.wfB x = true)
    (hy : Rope.wfB y = true) : Rope.wfB (concatenate x y) = true := by
  cases x <;> cases y <;>
    simp_all [concatenate, Rope.wfB, RopeNode.wfB]

lemma length_eq_toStr : ∀ (n : RopeNode), n.wfB = true →
    n.length = n.toStr.length
  | .leaf t, _ => rfl
  | .node w h l r, hwf => by
    simp only [RopeNode.wfB, Bool.and_eq_true, beq_iff_eq] at hwf
    obtain ⟨⟨hw, hl⟩, hr⟩ := hwf
    simp only [RopeNode.length, RopeNode.toStr, List.length_append]
    rw [hw, length_eq_toStr l hl, length_eq_toStr r hr]

lemma rope_length_toStr (root : Option RopeNode) (h : Rope.wfB root = true) :
    Rope.length root = (Rope.toStr root).length := by
  cases root with
  | none => rfl
  | some n => exact length_eq_toStr n h

lemma split_spec : ∀ (n : RopeNode) (pos : Int), n.wfB = true → 0 ≤ pos →
    Rope.toStr (split n pos).1 = n.toStr.take pos.toNat
    ∧ Rope.toStr (split n pos).2 = n.toStr.drop pos.toNat
    ∧ Rope.wfB (split n pos).1 = true ∧ Rope.wfB (split n pos).2 = true
  | .leaf t, pos, _, h0 => by
    simp only [split]
    by_cases hz : pos = 0
    · subst hz
      simp [Rope.toStr, RopeNode.toStr, Rope.wfB, RopeNode.wfB]
    · rw [if_neg hz]
      by_cases hge : pos ≥ (t.length : Int)
      · rw [if_pos hge]
        refine ⟨?_, ?_, by simp [Rope.wfB, RopeNode.wfB], by simp [Rope.wfB]⟩
        · simp only [Rope.toStr, RopeNode.toStr]
          exact (List.take_of_length_le (by omega)).symm
        · simp only [Rope.toStr, RopeNode.toStr]
          exact (List.drop_of_length_le (by omega)).symm
      · rw [if_neg hge]
        simp [Rope.toStr, RopeNode.toStr, Rope.wfB, RopeNode.wfB]
  | .node w h l r, pos, hwf, h0 => by
    simp only [RopeNode.wfB, Bool.and_eq_true, beq_iff_eq] at hwf
    obtain ⟨⟨hw, hl⟩, hr⟩ := hwf
    have hlen : l.toStr.length = w := by rw [← length_eq_toStr l hl, hw]
    simp only [split]
    by_cases hle : pos ≤ (w : Int)
    · rw [if_pos hle]
      obtain ⟨ih1, ih2, ih3, ih4⟩ := split_spec l pos hl h0
      simp only [RopeNode.toStr]
      refine ⟨?_, ?_, ih3, concat_wfB _ _ ih4 hr⟩
      · rw [ih1, List.take_append_of_le_length (by omega)]
      · rw [concat_toStr, ih2, List.drop_append_of_le_length (by omega)]
        simp [Rope.toStr]
    · rw [if_neg hle]
      obtain ⟨ih1, ih2, ih3, ih4⟩ := split_spec r (pos - w) hr (by omega)
      simp only [RopeNode.toStr]
      have hsub : (pos - (w : Int)).toNat = pos.toNat - w := by omega
      refine ⟨?_, ?_, concat_wfB _ _ (by simp [Rope.wfB, hl]) ih3, ih4⟩
      · rw [concat_toStr, ih1, hsub]
        simp only [Rope.toStr]
        rw [List.take_append_eq_append_take, hlen,
            List.take_of_length_le (by omega : l.toStr.length ≤ pos.toNat)]
      · rw [ih2, hsub, List.drop_append_eq_append_drop, hlen,
            List.drop_of_length_le (by omega : l.toStr.length ≤ pos.toNat)]
        simp

lemma insert_spec (root : Option RopeNode) (pos : Int) (text : List Char)
    (hwf : Rope.wfB root = true) (h0 : 0 ≤ pos)
    (hle : pos ≤ (Rope.length root : Int)) :
    ∃ r', Rope.insert root pos text = .ok r' ∧ Rope.wfB r' = true
      ∧ Rope.toStr r' = spliceInsert (Rope.toStr root) pos.toNat text := by
  rw [Rope.insert, if_neg (by omega : ¬ (pos < 0 ∨ pos > (Rope.length root : Int)))]
  cases root with
  | none =>
    refine ⟨some (.leaf text), rfl, by simp [Rope.wfB, RopeNode.wfB], ?_⟩
    simp [Rope.toStr, RopeNode.toStr, spliceInsert]
  | some n =>
    dsimp only
    have hlen : n.toStr.length = Rope.length (some n) := by
      rw [rope_length_toStr (some n) hwf]; rfl
    by_cases hz : pos = 0
    · subst hz
      simp only [if_pos rfl]
      refine ⟨_, rfl, concat_wfB _ _ (by simp [Rope.wfB, RopeNode.wfB]) hwf, ?_⟩
      rw [concat_toStr]
      simp [Rope.toStr, RopeNode.toStr, spliceInsert]
    · rw [if_neg hz]
      by_cases he : pos = (Rope.length (some n) : Int)
      · rw [if_pos he]
        refine ⟨_, rfl, concat_wfB _ _ hwf (by simp [Rope.wfB, RopeNode.wfB]), ?_⟩
        rw [concat_toStr]
        simp only [Rope.toStr, RopeNode.toStr, spliceInsert]
        rw [List.take_of_length_le (by omega), List.drop_of_length_le (by omega)]
        simp
      · rw [if_neg he]
        obtain ⟨h1, h2, h3, h4⟩ := split_spec n pos hwf h0
        refine ⟨_, rfl, ?_, ?_⟩
        · exact concat_wfB _ _ (concat_wfB _ _ h3 (by simp [Rope.wfB, RopeNode.wfB])) h4
        · rw [concat_toStr, concat_toStr, h1, h2]
          simp [Rope.toStr, RopeNode.toStr, spliceInsert, List.append_assoc]

lemma delete_spec (root : Option RopeNode) (pos len : Int)
    (hwf : Rope.wfB root = true) (h0 : 0 ≤ pos) (hl0 : 0 ≤ len)
    (hle : pos + len ≤ (Rope.length root : Int)) :
    ∃ r', Rope.delete root pos len = .ok r' ∧ Rope.wfB r' = true
      ∧ Rope.toStr r' = spliceDelete (Rope.toStr root) pos.toNat len.toNat := by
  rw [Rope.delete.eq_def,
    if_neg (by omega : ¬ (pos < 0 ∨ pos + len > (Rope.length root : Int)))]
  cases root with
  | none =>
    refine ⟨none, rfl, rfl, ?_⟩
    simp [Rope.toStr, spliceDelete]
  | some n =>
    dsimp only
    have hlen : n.toStr.length = Rope.length (some n) := by
      rw [rope_length_toStr (some n) hwf]; rfl
    by_cases hz : len = 0
    · subst hz
      simp only [if_pos rfl]
      refine ⟨some n, rfl, hwf, ?_⟩
      simp [spliceDelete, Rope.toStr]
    · rw [if_neg hz]
      obtain ⟨h1, h2, h3, h4⟩ := split_spec n pos hwf h0
      rcases hp2 : (split n pos).2 with _ | t
      · -- second part empty: everything beyond pos is empty
        rw [hp2] at h2
        have hnil : n.toStr.drop pos.toNat = [] := by
          rw [← h2]; rfl
        have hlong : n.toStr.length ≤ pos.toNat := by
          rw [← List.drop_eq_nil_iff]; exact hnil
        refine ⟨(split n pos).1, rfl, h3, ?_⟩
        rw [h1]
        simp only [spliceDelete, Rope.toStr]
        rw [List.take_of_length_le (by omega), List.drop_of_length_le (by omega),
            List.append_nil]
      · dsimp only
        rw [hp2] at h2 h4
        obtain ⟨g1, g2, g3, g4⟩ := split_spec t len h4 hl0
        have h2' : t.toStr = n.toStr.drop pos.toNat := h2
        have hdrop : Rope.toStr (split t len).2
            = n.toStr.drop (pos.toNat + len.toNat) := by
          rw [g2, h2', List.drop_drop]
        rcases hp1 : (split n pos).1 with _ | l
        · dsimp only
          rw [hp1] at h1
          have htake : n.toStr.take pos.toNat = [] := by rw [← h1]; rfl
          refine ⟨(split t len).2, rfl, g4, ?_⟩
          rw [hdrop]
          simp only [spliceDelete, Rope.toStr]
          rw [htake, List.nil_append]
        · dsimp only
          rcases hq2 : (split t len).2 with _ | rr
          · dsimp only
            rw [hq2] at hdrop
            have hnil : n.toStr.drop (pos.toNat + len.toNat) = [] := by
              rw [← hdrop]; rfl
            refine ⟨some l, rfl, by rw [← hp1]; exact h3, ?_⟩
            have : Rope.toStr (some l) = n.toStr.take pos.toNat := by
              rw [← hp1, h1]
            rw [this]
            simp only [spliceDelete, Rope.toStr]
            rw [hnil, List.append_nil]
          · dsimp only
            refine ⟨concatenate (some l) (some rr), rfl, ?_, ?_⟩
            · exact concat_wfB _ _ (by rw [← hp1]; exact h3) (by rw [← hq2]; exact g4)
            · rw [concat_toStr]
              have e1 : Rope.toStr (some l) = n.toStr.take pos.toNat := by
                rw [← hp1, h1]
              have e2 : Rope.toStr (some rr)
                  = n.toStr.drop (pos.toNat + len.toNat) := by
                rw [← hq2, hdrop]
              rw [e1, e2]
              simp only [spliceDelete, Rope.toStr]

/-! ### C8: the substring contract -/

lemma substringFn_err (n : RopeNode) (a b : Int)
    (h : ¬ (0 ≤ a ∧ a ≤ b ∧ b ≤ (n.length : Int))) :
    n.substringFn a b = .error "Invalid substring range" := by
  cases n with
  | leaf t =>
    rw [RopeNode.substringFn, if_pos]
    revert h
    simp only [RopeNode.length]
    omega
  | node w hh l r =>
    rw [RopeNode.substringFn, if_pos]
    revert h
    omega

lemma substringFn_ok : ∀ (n : RopeNode) (a b : Int), n.wfB = true →
    0 ≤ a → a ≤ b → b ≤ (n.length : Int) →
    n.substringFn a b = .ok ((n.toStr.take b.toNat).drop a.toNat)
  | .leaf t, a, b, _, h0, hab, hb => by
    simp only [RopeNode.length] at hb
    rw [RopeNode.substringFn, if_neg (by simp only [RopeNode.length]; omega)]
    rfl
  | .node w hh l r, a, b, hwf, h0, hab, hb => by
    simp only [RopeNode.wfB, Bool.and_eq_true, beq_iff_eq] at hwf
    obtain ⟨⟨hw, hl⟩, hr⟩ := hwf
    have hll : l.toStr.length = w := by rw [← length_eq_toStr l hl, hw]
    have hrl : r.length = r.toStr.length := length_eq_toStr r hr
    have hblen : b ≤ ((w : Int) + (r.length : Int)) := by
      simpa [RopeNode.length] using hb
    rw [RopeNode.substringFn, if_neg (by simp only [RopeNode.length]; omega)]
    by_cases hbw : b ≤ (w : Int)
    · rw [if_pos hbw, substringFn_ok l a b hl h0 hab (by omega)]
      simp only [RopeNode.toStr]
      rw [List.take_append_of_le_length (by omega)]
    · rw [if_neg hbw]
      by_cases haw : a ≥ (w : Int)
      · rw [if_pos haw,
          substringFn_ok r (a - w) (b - w) hr (by omega) (by omega) (by omega)]
        simp only [RopeNode.toStr]
        rw [List.take_append_eq_append_take, hll,
            List.take_of_length_le (by omega : l.toStr.length ≤ b.toNat),
            List.drop_append_eq_append_drop, hll,
            List.drop_of_length_le (by omega : l.toStr.length ≤ a.toNat)]
        have e1 : (b - (w : Int)).toNat = b.toNat - w := by omega
        have e2 : (a - (w : Int)).toNat = a.toNat - w := by omega
        rw [e1, e2, List.nil_append]
      · rw [if_neg haw,
          substringFn_ok l a (w : Int) hl h0 (by omega) (by omega),
          substringFn_ok r 0 (b - w) hr (by omega) (by omega) (by omega)]
        simp only [bind, Except.bind]
        simp only [RopeNode.toStr]
        have e0 : ((w : Int)).toNat = w := by omega
        have e1 : (b - (w : Int)).toNat = b.toNat - w := by omega
        rw [e0, e1, Int.toNat_zero, List.drop_zero,
            List.take_of_length_le (by omega : l.toStr.length ≤ w),
            List.take_append_eq_append_take, hll,
            List.take_of_length_le (by omega : l.toStr.length ≤ b.toNat),
            List.drop_append_eq_append_drop, hll]
        have e2 : a.toNat - w = 0 := by omega
        rw [e2, List.drop_zero]

/-- C8 (amended): for a *non-empty* well-formed rope, `substring(a, b)`
returns the slice `[a, b)` of the document when `0 ≤ a ≤ b ≤ len` and
fails with the out-of-bounds error otherwise; the *empty* rope, however,
returns `""` for every pair of indices, valid or not, without any check
(refuting the claim's "including the empty rope"). -/
theorem c8_substring_contract_amended (root : Option RopeNode) (a b : Int)
    (hwf : Rope.wfB root = true) :
    (root = none → Rope.substring root a b = .ok [])
    ∧ (root ≠ none →
        (0 ≤ a ∧ a ≤ b ∧ b ≤ (Rope.length root : Int) →
          Rope.substring root a b
            = .ok (((Rope.toStr root).take b.toNat).drop a.toNat))
        ∧ (¬ (0 ≤ a ∧ a ≤ b ∧ b ≤ (Rope.length root : Int)) →
          Rope.substring root a b = .error "Invalid substring range")) := by
  constructor
  · intro h
    subst h
    rfl
  · intro h
    cases root with
    | none => exact absurd rfl h
    | some n =>
      constructor
      · intro ⟨h0, hab, hb⟩
        exact substringFn_ok n a b hwf h0 hab hb
      · intro hbad
        exact substringFn_err n a b hbad

/-- C8 (counterexample): the empty rope returns `Except.ok ""` even for
the invalid index pair `a = 2 > b = 1`, instead of failing with an
out-of-bounds error as the claim demands for every rope. -/
theorem c8_substring_counterexample :
    Rope.substring (Rope.ofText []) 2 1 = .ok []
    ∧ ¬ (0 ≤ (2 : Int) ∧ (2 : Int) ≤ 1
          ∧ (1 : Int) ≤ (Rope.length (Rope.ofText []) : Int))
    ∧ ∀ e : String, Rope.substring (Rope.ofText []) 2 1 ≠ .error e := by
  refine ⟨rfl, by decide, ?_⟩
  intro e h
  rw [show Rope.substring (Rope.ofText []) 2 1 = .ok [] from rfl] at h
  exact Except.noConfusion h

/-- C8 witness rope: the two-leaf rope for `"hello"` built by an insert. -/
def c8wrope : RopeNode :=
  .node 3 2 (.leaf "hel".toList) (.leaf "lo".toList)

/-- C8 witness: the amended substring contract applied to a concrete
non-empty rope, in both the valid and the invalid index case. -/
theorem c8_substring_contract_witness :
    Rope.substring (some c8wrope) 1 4
      = .ok ((("hello".toList).take 4).drop 1)
    ∧ Rope.substring (some c8wrope) 3 1 = .error "Invalid substring range" := by
  have h := (c8_substring_contract_amended (some c8wrope) 1 4 (by decide)).2
    (by simp)
  have h' := (c8_substring_contract_amended (some c8wrope) 3 1 (by decide)).2
    (by simp)
  exact ⟨h.1 (by decide), h'.2 (by decide)⟩

/-! ### C9: rope / naive-splicing refinement -/

lemma ropeRun_spec : ∀ (ops : List Op) (root : Option RopeNode) (s : List Char),
    Rope.wfB root = true → Rope.toStr root = s → inBoundsB s ops = true →
    ∃ r', ropeRun root ops = .ok r' ∧ Rope.wfB r' = true
      ∧ Rope.toStr r' = naiveRun s ops
  | [], root, s, hwf, hstr, _ => ⟨root, rfl, hwf, hstr⟩
  | op :: rest, root, s, hwf, hstr, hib => by
    simp only [inBoundsB, Bool.and_eq_true, decide_eq_true_eq] at hib
    obtain ⟨⟨h0, hty⟩, hrest⟩ := hib
    have hlen : (Rope.length root : Int) = (s.length : Int) := by
      rw [rope_length_toStr root hwf, hstr]
    cases hop : op.type with
    | insert =>
      rw [hop] at hty
      simp only [decide_eq_true_eq] at hty
      obtain ⟨r1, he, hw1, hs1⟩ :=
        insert_spec root op.pos op.text hwf h0 (by rw [hlen]; exact hty)
      obtain ⟨r', he', hw', hs'⟩ :=
        ropeRun_spec rest r1 (applyOp s op) hw1
          (by rw [hs1, hstr]; simp [applyOp, hop]) hrest
      refine ⟨r', ?_, hw', by rw [hs']; simp [naiveRun]⟩
      simp only [ropeRun, List.foldlM_cons, ropeEdit, hop, he]
      exact he'
    | delete =>
      rw [hop] at hty
      simp only [Bool.and_eq_true, decide_eq_true_eq] at hty
      obtain ⟨r1, he, hw1, hs1⟩ :=
        delete_spec root op.pos op.len hwf h0 hty.1 (by rw [hlen]; exact hty.2)
      obtain ⟨r', he', hw', hs'⟩ :=
        ropeRun_spec rest r1 (applyOp s op) hw1
          (by rw [hs1, hstr]; simp [applyOp, hop]) hrest
      refine ⟨r', ?_, hw', by rw [hs']; simp [naiveRun]⟩
      simp only [ropeRun, List.foldlM_cons, ropeEdit, hop, he]
      exact he'

/-- C9 (confirmed): for every initial text `T` and every sequence of
in-bounds inserts and deletes, running the sequence through the rope
(built from `T`) and reading the string back yields exactly the naive
string-splicing result; in particular no rope call fails. -/
theorem c9_rope_refinement (T : List Char) (ops : List Op)
    (h : inBoundsB T ops = true) :
    (ropeRun (Rope.ofText T) ops).map Rope.toStr = .ok (naiveRun T ops) := by
  have hwf : Rope.wfB (Rope.ofText T) = true := by
    by_cases hT : T.isEmpty <;> simp [Rope.ofText, hT, Rope.wfB, RopeNode.wfB]
  have hstr : Rope.toStr (Rope.ofText T) = T := by
    by_cases hT : T.isEmpty
    · rw [Rope.ofText, if_pos hT]
      rw [List.isEmpty_iff] at hT
      simp [Rope.toStr, hT]
    · rw [Rope.ofText, if_neg hT]
      rfl
  obtain ⟨r', he, _, hs⟩ := ropeRun_spec ops (Rope.ofText T) T hwf hstr h
  rw [he, Except.map, hs]

/-- C9 witness: the refinement theorem applied to a concrete sequence of
edits over `"hello"`. -/
theorem c9_rope_refinement_witness :
    inBoundsB "hello".toList
      [{ type := .insert, pos := 5, clientId := "A", clientSeq := 1,
         text := " world".toList, len := 0 },
       { type := .delete, pos := 2, clientId := "B", clientSeq := 1,
         text := [], len := 3 },
       { type := .insert, pos := 0, clientId := "A", clientSeq := 2,
         text := "ab".toList, len := 0 }] = true
    ∧ (ropeRun (Rope.ofText "hello".toList)
        [{ type := .insert, pos := 5, clientId := "A", clientSeq := 1,
           text := " world".toList, len := 0 },
         { type := .delete, pos := 2, clientId := "B", clientSeq := 1,
           text := [], len := 3 },
         { type := .insert, pos := 0, clientId := "A", clientSeq := 2,
           text := "ab".toList, len := 0 }]).map Rope.toStr
      = .ok (naiveRun "hello".toList
        [{ type := .insert, pos := 5, clientId := "A", clientSeq := 1,
           text := " world".toList, len := 0 },
         { type := .delete, pos := 2, clientId := "B", clientSeq := 1,
           text := [], len := 3 },
         { type := .insert, pos := 0, clientId := "A", clientSeq := 2,
           text := "ab".toList, len := 0 }]) :=
  ⟨by decide,
    c9_rope_refinement "hello".toList
      [{ type := .insert, pos := 5, clientId := "A", clientSeq := 1,
         text := " world".toList, len := 0 },
       { type := .delete, pos := 2, clientId := "B", clientSeq := 1,
         text := [], len := 3 },
       { type := .insert, pos := 0, clientId := "A", clientSeq := 2,
         text := "ab".toList, len := 0 }] (by decide)⟩

/-- C6 witness: the monotonicity theorem applied to one successful apply
on a fresh document. -/
theorem c6_log_monotonicity_witness :
    (handleOperation (initDoc [⟨"A", true⟩]) c6xop).doc.serverSeq
      = (initDoc [⟨"A", true⟩]).serverSeq + 1
    ∧ (handleOperation (initDoc [⟨"A", true⟩]) c6xop).doc.ops
      = (initDoc [⟨"A", true⟩]).ops ++ [c6xop]
    ∧ (runOps (initDoc [⟨"A", true⟩]) [c6xop]).ops.length
      = (runOps (initDoc [⟨"A", true⟩]) [c6xop]).serverSeq :=
  ⟨((c6_log_monotonicity_amended.1 (initDoc [⟨"A", true⟩]) c6xop).1 rfl).1,
   ((c6_log_monotonicity_amended.1 (initDoc [⟨"A", true⟩]) c6xop).1 rfl).2,
   c6_log_monotonicity_amended.2 [⟨"A", true⟩] [c6xop]⟩
